import Mathlib

/-!
Shallow embedding of `tensorflow/core/profiler/utils/group_events.cc`
(event-correlation and grouping engine) and verification of its
natural-language specification.

Modelling conventions:
* Machine integers (`int64`, `uint64`) are modelled as `Int` / `Nat`; the one
  place where a `uint64` value is read into an `int64` vector uses an explicit
  two's-complement conversion `uint64ToInt64`.
* Heap-allocated, shared `EventNode`s are modelled as an arena: a node is an
  index into `GroupState.nodes`, and the `XEvent` a node points at is an index
  into `GroupState.events` (events are mutable: group-id / step-name stats are
  written back).
* The `XPlaneVisitor` (an external collaborator: schema lookup tables built
  from the plane's metadata) is modelled as plain association lists mapping
  metadata ids to event/stat types and stat types to writable metadata slots.
* C++ recursion that can diverge on cyclic heaps (`GetContextStat`,
  `PropagateGroupId`) is modelled with explicit fuel `nodes.length + 1`,
  which is enough for every acyclic (in particular every reachable-by-the-
  algorithm-on-forest-shaped) state.
-/

namespace GroupEventsVerif

/-! ## Well-known identifiers

Modelled from the spec: the catalog of well-known event-type and stat-type
identifiers (`xplane_schema.h`) is an external collaborator (spec §6); only
the distinctness of the constants matters to the engine. -/

def kUnknownHostEventType : Nat := 0
def kTraceContext : Nat := 1
def kSessionRun : Nat := 2
def kFunctionRun : Nat := 3
def kExecutorStateProcess : Nat := 4
def kKernelLaunch : Nat := 5
def kKernelExecute : Nat := 6

def kStepId : Nat := 101
def kCorrelationId : Nat := 102
def kDeviceId : Nat := 103
def kGraphType : Nat := 104
def kStepNum : Nat := 105
def kIterNum : Nat := 106
def kGroupId : Nat := 107
def kStepName : Nat := 108

/-! ## Raw data model (`XStat`, `XEvent`, `XLine`, `XPlane`) -/

/-- The `value` oneof of an `XStat` proto: int64, uint64 or string. -/
inductive XStatValue where
  | int64 (v : Int)
  | uint64 (v : Nat)
  | str (s : String)
deriving DecidableEq

/-- One attribute record: a stat-metadata reference plus a typed value. -/
structure XStat where
  metadataId : Nat
  value : XStatValue
deriving DecidableEq

/-- Proto accessor `int64_value()`: returns 0 unless the oneof holds int64. -/
def XStat.int64Value (s : XStat) : Int :=
  match s.value with
  | .int64 v => v
  | _ => 0

/-- Proto accessor `uint64_value()`: returns 0 unless the oneof holds uint64. -/
def XStat.uint64Value (s : XStat) : Nat :=
  match s.value with
  | .uint64 v => v
  | _ => 0

/-- Proto accessor `str_value()`: returns "" unless the oneof holds a string. -/
def XStat.strValue (s : XStat) : String :=
  match s.value with
  | .str v => v
  | _ => ""

/-- `stat.value_case() == stat.kInt64Value`. -/
def XStat.isInt64Case (s : XStat) : Bool :=
  match s.value with
  | .int64 _ => true
  | _ => false

/-- Two's-complement reinterpretation of a `uint64_value` pushed into a
`std::vector<int64>`. -/
def uint64ToInt64 (n : Nat) : Int :=
  let m : Nat := n % 2 ^ 64
  if m < 2 ^ 63 then (m : Int) else (m : Int) - 2 ^ 64

/-- One event: an event-metadata reference, a time interval
`[offsetPs, offsetPs + durationPs)` and its stats. -/
structure XEvent where
  metadataId : Nat
  offsetPs : Int
  durationPs : Int
  stats : List XStat
deriving DecidableEq

instance : Inhabited XEvent := ⟨⟨0, 0, 0, []⟩⟩

/-- One timeline (thread/stream): an ordered sequence of events. -/
structure XLine where
  events : List XEvent
deriving DecidableEq

/-- The visitor built by `CreateTfXPlaneVisitor` from a plane's metadata.
Modelled from the spec: a schema/visitor capability that, given an event,
yields its event-type identifier (or unknown), given a stat record its
stat-type identifier, and given a stat-type identifier can locate the
corresponding attribute slot for writing (spec §6). -/
structure XPlaneVisitor where
  eventTypes : List (Nat × Nat)
  statTypes : List (Nat × Nat)
  statMetadataIds : List (Nat × Nat)
deriving DecidableEq

/-- `visitor.GetEventType(event)`: resolve the event's metadata id. -/
def XPlaneVisitor.GetEventType (v : XPlaneVisitor) (e : XEvent) : Option Nat :=
  (v.eventTypes.find? (fun p => p.1 = e.metadataId)).map (fun p => p.2)

/-- `visitor.GetStatType(stat)`: resolve the stat's metadata id. -/
def XPlaneVisitor.GetStatType (v : XPlaneVisitor) (s : XStat) : Option Nat :=
  (v.statTypes.find? (fun p => p.1 = s.metadataId)).map (fun p => p.2)

/-- `visitor.GetStatMetadataId(stat_type)`: locate the writable slot. -/
def XPlaneVisitor.GetStatMetadataId (v : XPlaneVisitor) (st : Nat) : Option Nat :=
  (v.statMetadataIds.find? (fun p => p.1 = st)).map (fun p => p.2)

/-- One timeline collection (plane) together with its metadata tables
(the part of the plane consumed through `CreateTfXPlaneVisitor`). -/
structure XPlane where
  visitor : XPlaneVisitor
  lines : List XLine
deriving DecidableEq

/-- Modelled from the spec: `AddOrUpdateIntStat` (`xplane_utils`, external to
the given source) — mutate the event by updating the stat with the given
metadata id, or appending a new one. -/
def AddOrUpdateIntStat (metadataId : Nat) (value : Int) (e : XEvent) : XEvent :=
  if e.stats.any (fun s => s.metadataId = metadataId) then
    { e with stats := e.stats.map (fun s =>
        if s.metadataId = metadataId then { s with value := .int64 value } else s) }
  else
    { e with stats := e.stats ++ [⟨metadataId, .int64 value⟩] }

/-- Modelled from the spec: `AddOrUpdateStrStat` (`xplane_utils`, external to
the given source). -/
def AddOrUpdateStrStat (metadataId : Nat) (value : String) (e : XEvent) : XEvent :=
  if e.stats.any (fun s => s.metadataId = metadataId) then
    { e with stats := e.stats.map (fun s =>
        if s.metadataId = metadataId then { s with value := .str value } else s) }
  else
    { e with stats := e.stats ++ [⟨metadataId, .str value⟩] }

/-- Modelled from the spec: `IsNested(event, parent)` (`xplane_utils`,
external to the given source) — containment of the event's interval in the
parent's interval, both start and end bounds, equal bounds counting as
contained (spec §4.2). -/
def IsNested (e parent : XEvent) : Bool :=
  parent.offsetPs ≤ e.offsetPs &&
    e.offsetPs + e.durationPs ≤ parent.offsetPs + parent.durationPs

/-! ## Event nodes and the global state -/

/-- `EventNode`: wraps one event (by arena index) with its visitor, the
non-owning parent back-reference, the child list and the optional group id. -/
structure EventNode where
  visitor : XPlaneVisitor
  eventId : Nat
  parent : Option Nat
  children : List Nat
  groupId : Option Int
deriving DecidableEq

/-- The arena holding all events and nodes (the shared mutable heap). -/
structure GroupState where
  events : List XEvent
  nodes : List EventNode
deriving DecidableEq

def emptyState : GroupState := ⟨[], []⟩

/-- Update the `n`-th element of a list in place (no-op when out of range). -/
def listModify {α : Type} (l : List α) (n : Nat) (f : α → α) : List α :=
  match l, n with
  | [], _ => []
  | a :: t, 0 => f a :: t
  | a :: t, n + 1 => a :: listModify t n f

def GroupState.modifyNode (s : GroupState) (n : Nat) (f : EventNode → EventNode) :
    GroupState :=
  { s with nodes := listModify s.nodes n f }

def GroupState.modifyEvent (s : GroupState) (eid : Nat) (f : XEvent → XEvent) :
    GroupState :=
  { s with events := listModify s.events eid f }

/-- `parent_node->AddChild(cur_node)`. -/
def addChild (s : GroupState) (parent child : Nat) : GroupState :=
  s.modifyNode parent (fun nd => { nd with children := nd.children ++ [child] })

/-- `cur_node->SetParent(parent_node)` — overwrites the back-reference. -/
def setParent (s : GroupState) (child parent : Nat) : GroupState :=
  s.modifyNode child (fun nd => { nd with parent := some parent })

def setNodeGroupId (s : GroupState) (n : Nat) (g : Int) : GroupState :=
  s.modifyNode n (fun nd => { nd with groupId := some g })

def getNodeParent (s : GroupState) (n : Nat) : Option Nat :=
  match s.nodes.get? n with
  | some nd => nd.parent
  | none => none

def getNodeChildren (s : GroupState) (n : Nat) : List Nat :=
  match s.nodes.get? n with
  | some nd => nd.children
  | none => []

def getNodeGroupId (s : GroupState) (n : Nat) : Option Int :=
  match s.nodes.get? n with
  | some nd => nd.groupId
  | none => none

def getNodeVisitor (s : GroupState) (n : Nat) : XPlaneVisitor :=
  match s.nodes.get? n with
  | some nd => nd.visitor
  | none => ⟨[], [], []⟩

def getNodeEventId (s : GroupState) (n : Nat) : Nat :=
  match s.nodes.get? n with
  | some nd => nd.eventId
  | none => 0

/-- The event wrapped by node `n` (default event when out of range). -/
def nodeEventD (s : GroupState) (n : Nat) : XEvent :=
  (s.events.get? (getNodeEventId s n)).getD default

/-- The `i`-th event of a line (default event when out of range). -/
def evAt (es : List XEvent) (i : Nat) : XEvent :=
  (es.get? i).getD default

/-- The hypotheses of the containment claim, made precise: a line's events
are ordered by start time with properly-nested nonempty intervals — every
later event is either contained in the earlier one or starts at or after its
end, and all durations are positive. -/
def WellOrderedLine (es : List XEvent) : Prop :=
  (∀ j, j < es.length → ∀ i, i < j →
    (IsNested (evAt es j) (evAt es i) = true ∨
      (evAt es i).offsetPs + (evAt es i).durationPs ≤ (evAt es j).offsetPs)) ∧
  (∀ i, i < es.length → 0 < (evAt es i).durationPs)

/-- The stack of open ancestor candidates is a chain: each element's parent
back-reference is the element below it, whose interval contains it. -/
def stackChain (s : GroupState) : List Nat → Prop
  | [] => True
  | [_] => True
  | a :: b :: rest =>
    getNodeParent s a = some b ∧
      IsNested (nodeEventD s a) (nodeEventD s b) = true ∧
      stackChain s (b :: rest)

/-- `a` is a strict ancestor of `b` via parent back-references. -/
inductive IsAncestor (s : GroupState) : Nat → Nat → Prop
  | parentStep {n p : Nat} : getNodeParent s n = some p → IsAncestor s p n
  | tail {n p a : Nat} : getNodeParent s n = some p → IsAncestor s a p →
      IsAncestor s a n

/-! ## The source functions (`group_events.cc`) -/

/-- `GetKernelEventType`: scan the stats for correlation-id / device-id
(one pass setting two flags in the source). -/
def GetKernelEventType (v : XPlaneVisitor) (e : XEvent) : Option Nat :=
  let found := e.stats.foldl
    (fun (acc : Bool × Bool) stat =>
      if v.GetStatType stat = some kCorrelationId then (true, acc.2)
      else if v.GetStatType stat = some kDeviceId then (acc.1, true)
      else acc)
    (false, false)
  if found.1 then some (if found.2 then kKernelLaunch else kKernelExecute)
  else none

/-- `GetStat`: first stat of the event whose resolved type matches. -/
def GetStat (v : XPlaneVisitor) (e : XEvent) (statType : Nat) : Option XStat :=
  e.stats.find? (fun s => v.GetStatType s = some statType)

/-- `SetGroupId`: locate the group-id slot; if absent the write is skipped. -/
def SetGroupId (v : XPlaneVisitor) (groupId : Int) (e : XEvent) : XEvent :=
  match v.GetStatMetadataId kGroupId with
  | some mid => AddOrUpdateIntStat mid groupId e
  | none => e

/-- `EventNode::GetContextStat`: the node's own event first, then the parent
chain (fuel-bounded: the C++ recursion diverges on a cyclic heap). -/
def getContextStatAux (s : GroupState) : Nat → Nat → Nat → Option XStat
  | 0, _, _ => none
  | fuel + 1, n, statType =>
    match s.nodes.get? n with
    | none => none
    | some nd =>
      match GetStat nd.visitor (s.events.getD nd.eventId default) statType with
      | some stat => some stat
      | none =>
        match nd.parent with
        | some p => getContextStatAux s fuel p statType
        | none => none

/-- `EventNode::GetContextStat` with enough fuel for any acyclic chain. -/
def getContextStat (s : GroupState) (n statType : Nat) : Option XStat :=
  getContextStatAux s (s.nodes.length + 1) n statType

/-- `absl::StrJoin(parts, sep)`. -/
def strJoin (sep : String) : List String → String
  | [] => ""
  | [x] => x
  | x :: y :: rest => x ++ sep ++ strJoin sep (y :: rest)

/-- `EventNode::GetGroupName`: optional graph-type string, then the decimal
sum of step number and iteration number (each defaulting to 0), joined by a
single space. -/
def getGroupName (s : GroupState) (n : Nat) : String :=
  let nameParts : List String :=
    match getContextStat s n kGraphType with
    | some stat => [stat.strValue]
    | none => []
  let stepNum : Int :=
    match getContextStat s n kStepNum with
    | some stat => stat.int64Value
    | none => 0
  let stepNum : Int :=
    stepNum +
      match getContextStat s n kIterNum with
      | some stat => stat.int64Value
      | none => 0
  strJoin " " (nameParts ++ [toString stepNum])

/-- `EventNode::PropagateGroupId` (fuel-bounded: the C++ recursion diverges
on a cyclic heap): set the node's group id unconditionally, write it onto the
wrapped event, recurse into the children rereading `*group_id_`. -/
def propagateGroupIdAux : Nat → GroupState → Nat → Int → GroupState
  | 0, s, _, _ => s
  | fuel + 1, s, n, g =>
    match s.nodes.get? n with
    | none => s
    | some nd =>
      let s1 := setNodeGroupId s n g
      let s2 := s1.modifyEvent nd.eventId (SetGroupId nd.visitor g)
      nd.children.foldl
        (fun t c => propagateGroupIdAux fuel t c ((getNodeGroupId t n).getD g)) s2

/-- `EventNode::PropagateGroupId` with enough fuel for any acyclic heap. -/
def propagateGroupId (s : GroupState) (n : Nat) (g : Int) : GroupState :=
  propagateGroupIdAux (s.nodes.length + 1) s n g

/-- `EventNode::AddStepName`: dereferences the looked-up step-name slot
unconditionally; a missing slot is undefined behavior, modelled as `none`. -/
def addStepName (s : GroupState) (n : Nat) (stepName : String) :
    Option GroupState :=
  match (getNodeVisitor s n).GetStatMetadataId kStepName with
  | some mid =>
      some (s.modifyEvent (getNodeEventId s n) (AddOrUpdateStrStat mid stepName))
  | none => none

/-! ## Event-type index (`EventNodeMap`) -/

/-- `absl::flat_hash_map<int64, std::vector<std::shared_ptr<EventNode>>>`:
only ever looked up by key, modelled as an association list. -/
abbrev EventNodeMap := List (Nat × List Nat)

def enmFind? (m : EventNodeMap) (k : Nat) : Option (List Nat) :=
  (List.find? (fun p => p.1 = k) m).map (fun p => p.2)

def enmContains (m : EventNodeMap) (k : Nat) : Bool :=
  (enmFind? m k).isSome

/-- `try_emplace(k)`. -/
def enmTryEmplace (m : EventNodeMap) (k : Nat) : EventNodeMap :=
  if enmContains m k then m else m ++ [(k, [])]

/-- `if (auto it = gtl::FindOrNull(map, k)) it->push_back(v)`. -/
def enmPushExisting (m : EventNodeMap) (k : Nat) (v : Nat) : EventNodeMap :=
  List.map (fun p => if p.1 = k then (p.1, p.2 ++ [v]) else p) m

/-- `map[k].push_back(v)` — `operator[]` creates the bucket if absent. -/
def enmPushCreate (m : EventNodeMap) (k : Nat) (v : Nat) : EventNodeMap :=
  if enmContains m k then enmPushExisting m k v else m ++ [(k, [v])]

/-- `InterThreadConnectInfo` (correlation rule). -/
structure InterThreadConnectInfo where
  parentEventType : Nat
  childEventType : Nat
  statTypes : List Nat
deriving DecidableEq

/-- `CreateEventNodeMap`: pre-create buckets for every rule's parent and
child type and for every root type. -/
def CreateEventNodeMap (connectInfoList : List InterThreadConnectInfo)
    (rootEventTypes : List Nat) : EventNodeMap :=
  let m := connectInfoList.foldl
    (fun m ci => enmTryEmplace (enmTryEmplace m ci.parentEventType) ci.childEventType)
    []
  rootEventTypes.foldl (fun m t => enmTryEmplace m t) m

/-! ## Intra-thread linking -/

/-- The pop-and-link loop of `ConnectIntraThread`: pop candidates that do not
temporally contain the new event; on the first containing candidate, link the
new node under it and stop. -/
def linkOnStack (s : GroupState) (nid : Nat) (e : XEvent) :
    List Nat → GroupState × List Nat
  | [] => (s, [])
  | top :: rest =>
    if IsNested e (nodeEventD s top) then
      (setParent (addChild s top nid) nid top, top :: rest)
    else
      linkOnStack s nid e rest

/-- One iteration of the inner loop of `ConnectIntraThread`: wrap the event in
a fresh node, pop/link on the stack, push, index by declared type, and append
to a synthetic kernel bucket when one is tracked. -/
def processEvent (v : XPlaneVisitor) (acc : GroupState × EventNodeMap × List Nat)
    (e : XEvent) : GroupState × EventNodeMap × List Nat :=
  let s := acc.1
  let m := acc.2.1
  let stack := acc.2.2
  let nid := s.nodes.length
  let eid := s.events.length
  let s := { s with
    events := s.events ++ [e],
    nodes := s.nodes ++ [⟨v, eid, none, [], none⟩] }
  let r := linkOnStack s nid e stack
  let s := r.1
  let stack := nid :: r.2
  let m := enmPushExisting m ((v.GetEventType e).getD kUnknownHostEventType) nid
  let m :=
    if enmContains m kKernelLaunch || enmContains m kKernelExecute then
      match GetKernelEventType v e with
      | some t => enmPushCreate m t nid
      | none => m
    else m
  (s, m, stack)

/-- One line of `ConnectIntraThread` (fresh candidate stack per line). -/
def processLine (v : XPlaneVisitor) (acc : GroupState × EventNodeMap)
    (line : XLine) : GroupState × EventNodeMap :=
  let r := line.events.foldl (processEvent v) (acc.1, acc.2, [])
  (r.1, r.2.1)

/-- `ConnectIntraThread`. -/
def ConnectIntraThread (v : XPlaneVisitor) (p : XPlane)
    (acc : GroupState × EventNodeMap) : GroupState × EventNodeMap :=
  p.lines.foldl (processLine v) acc

/-! ## Inter-thread linking -/

/-- Sign-adjusted key component pushed into the `std::vector<int64>` key:
`int64_value()` when the oneof holds int64, else `uint64_value()`. -/
def keyComponent (stat : XStat) : Int :=
  if stat.isInt64Case then stat.int64Value else uint64ToInt64 stat.uint64Value

/-- Resolve the full correlation key of a candidate via the context-stat
chain; `none` when any key attribute is missing (the `break`). -/
def resolveKey (s : GroupState) (n : Nat) : List Nat → Option (List Int)
  | [] => some []
  | st :: rest =>
    match getContextStat s n st with
    | none => none
    | some stat => (resolveKey s n rest).map (fun l => keyComponent stat :: l)

/-- The per-rule `connect_map` from key tuples to parent nodes. -/
abbrev ConnectMap := List (List Int × Nat)

def cmapFind? (m : ConnectMap) (k : List Int) : Option Nat :=
  (List.find? (fun p => p.1 = k) m).map (fun p => p.2)

/-- `connect_map[stats] = parent` — update if present, insert otherwise. -/
def cmapSet (m : ConnectMap) (k : List Int) (v : Nat) : ConnectMap :=
  if (cmapFind? m k).isSome then
    List.map (fun p => if p.1 = k then (p.1, v) else p) m
  else m ++ [(k, v)]

/-- One parent candidate of step 1 of a rule: include it under its resolved
key (overwriting an earlier parent with the same key), or skip it. -/
def buildStep (s : GroupState) (statTypes : List Nat) (m : ConnectMap)
    (n : Nat) : ConnectMap :=
  match resolveKey s n statTypes with
  | some key => cmapSet m key n
  | none => m

/-- Step 1 of a rule: build the key map over the parent bucket
(last write wins). -/
def buildConnectMap (s : GroupState) (statTypes : List Nat)
    (bucket : List Nat) : ConnectMap :=
  bucket.foldl (buildStep s statTypes) []

/-- One child candidate of step 2 of a rule: resolve the key against the
current (mutating) state; on a hit, link the child under the mapped parent
(the link overwrites the child's previous parent back-reference). -/
def linkChildStep (cmap : ConnectMap) (statTypes : List Nat) (s : GroupState)
    (c : Nat) : GroupState :=
  match resolveKey s c statTypes with
  | none => s
  | some key =>
    match cmapFind? cmap key with
    | none => s
    | some p => setParent (addChild s p c) c p

/-- Step 2 of a rule: link each resolving child under the mapped parent. -/
def linkChildren (cmap : ConnectMap) (statTypes : List Nat) (s : GroupState)
    (bucket : List Nat) : GroupState :=
  bucket.foldl (linkChildStep cmap statTypes) s

/-- One rule of `ConnectInterThread`. -/
def processRule (enm : EventNodeMap) (s : GroupState)
    (ci : InterThreadConnectInfo) : GroupState :=
  let cmap :=
    match enmFind? enm ci.parentEventType with
    | some bucket => buildConnectMap s ci.statTypes bucket
    | none => []
  match enmFind? enm ci.childEventType with
  | some bucket => linkChildren cmap ci.statTypes s bucket
  | none => s

/-- `ConnectInterThread`: rules processed independently in order. -/
def ConnectInterThread (enm : EventNodeMap) (s : GroupState)
    (connectInfoList : List InterThreadConnectInfo) : GroupState :=
  connectInfoList.foldl (processRule enm) s

/-! ## Group assignment -/

/-- `EventGroupNameMap`. -/
abbrev EventGroupNameMap := List (Int × String)

def nameMapSet (m : EventGroupNameMap) (k : Int) (v : String) :
    EventGroupNameMap :=
  if (List.find? (fun p => p.1 = k) m).isSome then
    List.map (fun p => if p.1 = k then (p.1, v) else p) m
  else m ++ [(k, v)]

/-- Process one node of a root bucket: skip when already grouped, else seed a
new group, propagate, record the name, and on a trace-context root write the
step name back (which can fail, see `addStepName`). -/
def processRootNode (rootType : Nat)
    (acc : GroupState × EventGroupNameMap × Int) (n : Nat) :
    Option (GroupState × EventGroupNameMap × Int) :=
  let s := acc.1
  let nm := acc.2.1
  let next := acc.2.2
  match getNodeGroupId s n with
  | some _ => some acc
  | none =>
    let gid := next
    let s := propagateGroupId s n gid
    let name := getGroupName s n
    let nm := nameMapSet nm gid name
    if rootType = kTraceContext then
      match addStepName s n name with
      | some s => some (s, nm, next + 1)
      | none => none
    else
      some (s, nm, next + 1)

/-- `CreateEventGroup`. -/
def CreateEventGroup (rootEventTypes : List Nat) (enm : EventNodeMap)
    (s : GroupState) (nm : EventGroupNameMap) :
    Option (GroupState × EventGroupNameMap) :=
  ((rootEventTypes.foldlM
      (fun acc t =>
        match enmFind? enm t with
        | none => some acc
        | some bucket => bucket.foldlM (processRootNode t) acc)
      (s, nm, (0 : Int)) :
    Option (GroupState × EventGroupNameMap × Int))).map
    (fun r => (r.1, r.2.1))

/-! ## Orchestrator -/

/-- Replace a line's events by their (possibly mutated) arena versions,
starting at arena index `start`. -/
def rebuildEvents (arena : List XEvent) : Nat → List XEvent → List XEvent
  | _, [] => []
  | i, e :: rest => (arena.getD i e) :: rebuildEvents arena (i + 1) rest

def rebuildLines (arena : List XEvent) : Nat → List XLine → List XLine × Nat
  | i, [] => ([], i)
  | i, l :: rest =>
    match rebuildLines arena (i + l.events.length) rest with
    | (ls, j) => (⟨rebuildEvents arena i l.events⟩ :: ls, j)

def rebuildPlane (arena : List XEvent) (start : Nat) (p : XPlane) :
    XPlane × Nat :=
  let r := rebuildLines arena start p.lines
  ({ p with lines := r.1 }, r.2)

/-- `GroupEvents`: the sole public entry point. A null host trace is an
explicit no-op precondition check. Returns the final arena state, the group
name table, and the mutated host/device planes. -/
def GroupEvents (connectInfoList : List InterThreadConnectInfo)
    (rootEventTypes : List Nat) (hostTrace : Option XPlane)
    (deviceTraces : List XPlane) (nm : EventGroupNameMap) :
    Option (GroupState × EventGroupNameMap × Option XPlane × List XPlane) :=
  match hostTrace with
  | none => some (emptyState, nm, none, deviceTraces)
  | some host =>
    let enm := CreateEventNodeMap connectInfoList rootEventTypes
    let acc := ConnectIntraThread host.visitor host (emptyState, enm)
    let acc := deviceTraces.foldl
      (fun acc d => ConnectIntraThread d.visitor d acc) acc
    let s := ConnectInterThread acc.2 acc.1 connectInfoList
    match CreateEventGroup rootEventTypes acc.2 s nm with
    | none => none
    | some r =>
      let s := r.1
      let nm := r.2
      let hostR := rebuildPlane s.events 0 host
      let devR := deviceTraces.foldl
        (fun (a : List XPlane × Nat) d =>
          let dr := rebuildPlane s.events a.2 d
          (a.1 ++ [dr.1], dr.2))
        ([], hostR.2)
      some (s, nm, some hostR.1, devR.1)

/-- `GroupTfEvents`: the fixed product preset. -/
def GroupTfEvents (hostTrace : Option XPlane) (deviceTraces : List XPlane)
    (nm : EventGroupNameMap) :
    Option (GroupState × EventGroupNameMap × Option XPlane × List XPlane) :=
  GroupEvents
    [⟨kFunctionRun, kExecutorStateProcess, [kStepId]⟩,
     ⟨kSessionRun, kExecutorStateProcess, [kStepId]⟩,
     ⟨kKernelLaunch, kKernelExecute, [kCorrelationId]⟩]
    [kTraceContext, kFunctionRun, kSessionRun]
    hostTrace deviceTraces nm

/-! ## Derived notions used by the verification -/

/-- Parent back-references always point to a strictly smaller node id. -/
def ParentsDecrease (s : GroupState) : Prop :=
  ∀ n q, getNodeParent s n = some q → q < n

/-- Iterated parent lookup. -/
def iterParent (s : GroupState) : Nat → Nat → Option Nat
  | 0, n => some n
  | k + 1, n =>
    match getNodeParent s n with
    | some q => iterParent s k q
    | none => none

/-- The invariant of the per-line stack algorithm after `t` processed
events, over a state `s` and candidate stack `stk`; `n0`/`e0` are the node
and event arena sizes before the line started. -/
structure IntraInv (es : List XEvent) (n0 e0 t : Nat) (s : GroupState)
    (stk : List Nat) : Prop where
  len_nodes : s.nodes.length = n0 + t
  len_events : s.events.length = e0 + t
  ev_id : ∀ k, k < t → getNodeEventId s (n0 + k) = e0 + k
  ev_content : ∀ k, k < t → s.events.get? (e0 + k) = some (evAt es k)
  pdec : ParentsDecrease s
  stack_mem : ∀ x ∈ stk, ∃ k, k < t ∧ x = n0 + k
  stack_top : 0 < t → ∃ rest, stk = (n0 + (t - 1)) :: rest
  chain : stackChain s stk
  coverage : ∀ k, k < t →
    IsNested (evAt es (t - 1)) (evAt es k) = true → (n0 + k) ∈ stk
  ancestry : ∀ i j, i < j → j < t →
    IsNested (evAt es j) (evAt es i) = true → IsAncestor s (n0 + i) (n0 + j)

/-! ## Concrete scenarios used by the claims -/

/-- C3 scenario: one host line, A = SessionRun over `[0,100)` with step id 1,
B = ExecutorStateProcess over `[10,90)` with step id 1, no graph-type stat;
the visitor maps stat metadata 1 to step id and offers slot 50 for group id. -/
def c3visitor : XPlaneVisitor :=
  ⟨[(10, kSessionRun), (11, kExecutorStateProcess)], [(1, kStepId)],
   [(kGroupId, 50)]⟩

def c3eventA : XEvent := ⟨10, 0, 100, [⟨1, .int64 1⟩]⟩

def c3eventB : XEvent := ⟨11, 10, 80, [⟨1, .int64 1⟩]⟩

def c3host : XPlane := ⟨c3visitor, [⟨[c3eventA, c3eventB]⟩]⟩

def c3run : Option (GroupState × EventGroupNameMap × Option XPlane × List XPlane) :=
  GroupEvents [⟨kSessionRun, kExecutorStateProcess, [kStepId]⟩] [kSessionRun]
    (some c3host) [] []

/-- C1 scenario: r1 = SessionRun root containing d intra-thread on line 1;
r2 = FunctionRun root on line 2; the rule relinks d (step id 1) under r2,
leaving d in r1's child list. d is then reachable from both roots. -/
def c1visitor : XPlaneVisitor :=
  ⟨[(10, kSessionRun), (11, kExecutorStateProcess), (12, kFunctionRun)],
   [(1, kStepId)], []⟩

def c1host : XPlane :=
  ⟨c1visitor,
   [⟨[⟨10, 0, 100, []⟩, ⟨11, 10, 10, [⟨1, .int64 1⟩]⟩]⟩,
    ⟨[⟨12, 30, 10, [⟨1, .int64 1⟩]⟩]⟩]⟩

def c1rules : List InterThreadConnectInfo :=
  [⟨kFunctionRun, kExecutorStateProcess, [kStepId]⟩]

def c1intra : GroupState × EventNodeMap :=
  ConnectIntraThread c1visitor c1host
    (emptyState, CreateEventNodeMap c1rules [kSessionRun, kFunctionRun])

def c1linked : GroupState := ConnectInterThread c1intra.2 c1intra.1 c1rules

/-- C2 scenario: a rule whose parent bucket and child bucket coincide makes
node 1 its own parent while it stays in node 0's child list. -/
def c2visitor : XPlaneVisitor :=
  ⟨[(11, kExecutorStateProcess)], [(1, kStepId)], []⟩

def c2rules : List InterThreadConnectInfo :=
  [⟨kExecutorStateProcess, kExecutorStateProcess, [kStepId]⟩]

def c2intra : GroupState × EventNodeMap :=
  ConnectIntraThread c2visitor
    ⟨c2visitor, [⟨[⟨99, 0, 100, []⟩, ⟨11, 10, 80, [⟨1, .int64 7⟩]⟩]⟩]⟩
    (emptyState, CreateEventNodeMap c2rules [])

def c2final : GroupState := ConnectInterThread c2intra.2 c2intra.1 c2rules

/-- C8 scenario: a trace-context root whose visitor lacks the step-name slot. -/
def c8host : XPlane := ⟨⟨[(10, kTraceContext)], [], []⟩, [⟨[⟨10, 0, 100, []⟩]⟩]⟩

/-- C8 completion scenario: a session-run root whose visitor lacks even the
group-id slot — the group-id write is skipped and the pass completes. -/
def c8bvisitor : XPlaneVisitor := ⟨[(10, kSessionRun)], [], []⟩

def c8bhost : XPlane := ⟨c8bvisitor, [⟨[⟨10, 0, 100, []⟩]⟩]⟩

/-- C10 scenario: parent's key stat is the string "x", child's is the string
"y"; both keys resolve to `[0]`, so the child is linked under the parent. -/
def c10visitor : XPlaneVisitor :=
  ⟨[(10, kSessionRun), (11, kExecutorStateProcess)], [(1, kStepId)], []⟩

def c10rules : List InterThreadConnectInfo :=
  [⟨kSessionRun, kExecutorStateProcess, [kStepId]⟩]

def c10intra : GroupState × EventNodeMap :=
  ConnectIntraThread c10visitor
    ⟨c10visitor, [⟨[⟨10, 0, 100, [⟨1, .str "x"⟩]⟩]⟩, ⟨[⟨11, 200, 10, [⟨1, .str "y"⟩]⟩]⟩]⟩
    (emptyState, CreateEventNodeMap c10rules [])

def c10final : GroupState := ConnectInterThread c10intra.2 c10intra.1 c10rules

/-- C6 scenario visitor: stat metadata 1/2/3 are graph type, step number and
iteration number. -/
def c6visitor : XPlaneVisitor :=
  ⟨[], [(1, kGraphType), (2, kStepNum), (3, kIterNum)], []⟩

/-- C6 instance state: node with graph type "train", step number 3,
iteration number 0. -/
def c6state1 : GroupState :=
  ⟨[⟨9, 0, 10, [⟨1, .str "train"⟩, ⟨2, .int64 3⟩, ⟨3, .int64 0⟩]⟩],
   [⟨c6visitor, 0, none, [], none⟩]⟩

/-- C6 instance state: node with no graph type, step number 0, iteration
number 5. -/
def c6state2 : GroupState :=
  ⟨[⟨9, 0, 10, [⟨2, .int64 0⟩, ⟨3, .int64 5⟩]⟩],
   [⟨c6visitor, 0, none, [], none⟩]⟩

/-! ## Basic lemmas about the list and map helpers -/

theorem listModify_get? {α : Type} (l : List α) (n : Nat) (f : α → α) (m : Nat) :
    (listModify l n f).get? m =
      if m = n then (l.get? n).map f else l.get? m := by
  induction l generalizing n m with
  | nil => cases n <;> cases m <;> simp [listModify]
  | cons x t ih =>
    cases n with
    | zero => cases m <;> simp [listModify]
    | succ n =>
      cases m with
      | zero => simp [listModify]
      | succ m => simpa [listModify, Nat.succ_inj] using ih n m

theorem listModify_length {α : Type} (l : List α) (n : Nat) (f : α → α) :
    (listModify l n f).length = l.length := by
  induction l generalizing n with
  | nil => cases n <;> rfl
  | cons x t ih => cases n <;> simp [listModify, ih]

theorem get?_snoc {α : Type} (l : List α) (a : α) (m : Nat) :
    (l ++ [a]).get? m = if m = l.length then some a else l.get? m := by
  induction l generalizing m with
  | nil => cases m <;> simp
  | cons x t ih =>
    cases m with
    | zero => simp
    | succ m => simpa [Nat.succ_inj] using ih m

theorem get?_isSome_iff {α : Type} (l : List α) (n : Nat) :
    (l.get? n).isSome = true ↔ n < l.length := by
  induction l generalizing n with
  | nil => simp
  | cons x t ih =>
    cases n with
    | zero => simp
    | succ n => simpa [Nat.succ_lt_succ_iff] using ih n

/-! ## Pointwise lemmas about the state operations -/

theorem nodes_modifyEvent (s : GroupState) (eid : Nat) (f : XEvent → XEvent) :
    (s.modifyEvent eid f).nodes = s.nodes := rfl

theorem events_modifyNode (s : GroupState) (n : Nat) (f : EventNode → EventNode) :
    (s.modifyNode n f).events = s.events := rfl

theorem nodes_get?_modifyNode (s : GroupState) (n : Nat) (f : EventNode → EventNode)
    (m : Nat) :
    (s.modifyNode n f).nodes.get? m =
      if m = n then (s.nodes.get? n).map f else s.nodes.get? m :=
  listModify_get? s.nodes n f m

theorem nodes_length_modifyNode (s : GroupState) (n : Nat)
    (f : EventNode → EventNode) :
    (s.modifyNode n f).nodes.length = s.nodes.length :=
  listModify_length s.nodes n f

theorem getNodeParent_setParent (s : GroupState) (c p m : Nat) :
    getNodeParent (setParent s c p) m =
      if m = c ∧ (s.nodes.get? c).isSome then some p else getNodeParent s m := by
  unfold getNodeParent setParent
  rw [nodes_get?_modifyNode]
  by_cases h : m = c
  · subst h
    cases hg : s.nodes.get? m <;> simp [hg]
  · simp [h]

theorem getNodeParent_addChild (s : GroupState) (a b m : Nat) :
    getNodeParent (addChild s a b) m = getNodeParent s m := by
  unfold getNodeParent addChild
  rw [nodes_get?_modifyNode]
  by_cases h : m = a
  · subst h
    cases hg : s.nodes.get? m <;> simp [hg]
  · simp [h]

theorem getNodeParent_setNodeGroupId (s : GroupState) (n : Nat) (g : Int) (m : Nat) :
    getNodeParent (setNodeGroupId s n g) m = getNodeParent s m := by
  unfold getNodeParent setNodeGroupId
  rw [nodes_get?_modifyNode]
  by_cases h : m = n
  · subst h
    cases hg : s.nodes.get? m <;> simp [hg]
  · simp [h]

theorem getNodeParent_modifyEvent (s : GroupState) (eid : Nat) (f : XEvent → XEvent)
    (m : Nat) :
    getNodeParent (s.modifyEvent eid f) m = getNodeParent s m := rfl

theorem getNodeChildren_addChild (s : GroupState) (a b m : Nat) :
    getNodeChildren (addChild s a b) m =
      if m = a ∧ (s.nodes.get? a).isSome then getNodeChildren s a ++ [b]
      else getNodeChildren s m := by
  unfold getNodeChildren addChild
  rw [nodes_get?_modifyNode]
  by_cases h : m = a
  · subst h
    cases hg : s.nodes.get? m <;> simp [hg]
  · simp [h]

theorem getNodeChildren_setParent (s : GroupState) (c p m : Nat) :
    getNodeChildren (setParent s c p) m = getNodeChildren s m := by
  unfold getNodeChildren setParent
  rw [nodes_get?_modifyNode]
  by_cases h : m = c
  · subst h
    cases hg : s.nodes.get? m <;> simp [hg]
  · simp [h]

theorem getNodeChildren_setNodeGroupId (s : GroupState) (n : Nat) (g : Int)
    (m : Nat) :
    getNodeChildren (setNodeGroupId s n g) m = getNodeChildren s m := by
  unfold getNodeChildren setNodeGroupId
  rw [nodes_get?_modifyNode]
  by_cases h : m = n
  · subst h
    cases hg : s.nodes.get? m <;> simp [hg]
  · simp [h]

theorem getNodeChildren_modifyEvent (s : GroupState) (eid : Nat)
    (f : XEvent → XEvent) (m : Nat) :
    getNodeChildren (s.modifyEvent eid f) m = getNodeChildren s m := rfl

theorem getNodeGroupId_setNodeGroupId (s : GroupState) (n : Nat) (g : Int)
    (m : Nat) :
    getNodeGroupId (setNodeGroupId s n g) m =
      if m = n ∧ (s.nodes.get? n).isSome then some g else getNodeGroupId s m := by
  unfold getNodeGroupId setNodeGroupId
  rw [nodes_get?_modifyNode]
  by_cases h : m = n
  · subst h
    cases hg : s.nodes.get? m <;> simp [hg]
  · simp [h]

theorem getNodeGroupId_setParent (s : GroupState) (c p : Nat) (m : Nat) :
    getNodeGroupId (setParent s c p) m = getNodeGroupId s m := by
  unfold getNodeGroupId setParent
  rw [nodes_get?_modifyNode]
  by_cases h : m = c
  · subst h
    cases hg : s.nodes.get? m <;> simp [hg]
  · simp [h]

theorem getNodeGroupId_addChild (s : GroupState) (a b : Nat) (m : Nat) :
    getNodeGroupId (addChild s a b) m = getNodeGroupId s m := by
  unfold getNodeGroupId addChild
  rw [nodes_get?_modifyNode]
  by_cases h : m = a
  · subst h
    cases hg : s.nodes.get? m <;> simp [hg]
  · simp [h]

theorem getNodeGroupId_modifyEvent (s : GroupState) (eid : Nat)
    (f : XEvent → XEvent) (m : Nat) :
    getNodeGroupId (s.modifyEvent eid f) m = getNodeGroupId s m := rfl

/-! ## Claim C7: null host timeline is a no-op -/

/-- C7: for every rule list, root-type list and device-timeline list, calling
`GroupEvents` with a null host timeline is a no-op returning an empty
group-name table: the device timelines are returned unmodified, no node state
exists, and no error is raised. -/
theorem claim7_null_host_noop (connectInfoList : List InterThreadConnectInfo)
    (rootEventTypes : List Nat) (deviceTraces : List XPlane) :
    GroupEvents connectInfoList rootEventTypes none deviceTraces [] =
      some (emptyState, [], none, deviceTraces) := rfl

/-! ## Claim C6: group-name computation -/

/-- C6: for every node the group name is the graph-type string resolved
through the ancestor chain (first, when present), followed by the decimal
value of step number (default 0) plus iteration number (default 0), joined by
a single space; with no graph type the name is just the decimal sum. In
particular graph type "train" with step number 3 and iteration number 0
yields "train 3", and no graph type with step number 0 and iteration number 5
yields "5". -/
theorem claim6_group_name :
    (∀ (s : GroupState) (n : Nat),
      getGroupName s n =
        (let stepSum : Int :=
          (match getContextStat s n kStepNum with
           | some stat => stat.int64Value
           | none => 0) +
          (match getContextStat s n kIterNum with
           | some stat => stat.int64Value
           | none => 0)
         match getContextStat s n kGraphType with
         | some g => g.strValue ++ " " ++ toString stepSum
         | none => toString stepSum)) ∧
    getGroupName c6state1 0 = "train 3" ∧
    getGroupName c6state2 0 = "5" := by
  refine ⟨fun s n => ?_, rfl, rfl⟩
  unfold getGroupName
  cases getContextStat s n kGraphType <;> rfl

/-! ## Claim C3: end-to-end scenario (corrected) -/

/-- C3 counterexample: on the spec's end-to-end scenario the produced name
table is not `{0: "1"}` (the group name is derived from the step-number /
iteration-number stats, which are absent, not from the step id). -/
theorem claim3_counterexample :
    c3run.map (fun r => r.2.1) ≠ some [((0 : Int), "1")] := by
  rw [show c3run.map (fun r => r.2.1) = some [((0 : Int), "0")] from rfl]
  decide

/-- C3 (amended): on the scenario input, `GroupEvents` produces exactly one
group with id 0, makes B a child of A (via both the intra-thread link and the
rule, so B appears twice in A's child list), writes group id 0 onto both
events, and returns the name table `{0: "0"}`. -/
theorem claim3_scenario_outcome :
    c3run.map (fun r => r.2.1) = some [((0 : Int), "0")] ∧
    c3run.map (fun r => getNodeParent r.1 1) = some (some 0) ∧
    c3run.map (fun r => getNodeChildren r.1 0) = some [1, 1] ∧
    c3run.map (fun r => (getNodeGroupId r.1 0, getNodeGroupId r.1 1)) =
      some (some 0, some 0) ∧
    c3run.map
        (fun r => r.2.2.1.map (fun p => p.lines.map (fun l => l.events.map XEvent.stats))) =
      some (some [[[⟨1, .int64 1⟩, ⟨50, .int64 0⟩],
                   [⟨1, .int64 1⟩, ⟨50, .int64 0⟩]]]) :=
  ⟨rfl, rfl, rfl, rfl, rfl⟩

/-! ## Claim C8: attribute writes (corrected) -/

/-- C8 counterexample: with a trace-context root whose plane has no step-name
stat-metadata slot, the pass does not continue normally — `AddStepName`
dereferences the absent slot unconditionally (undefined behavior, modelled as
failure), so `GroupEvents` aborts. -/
theorem claim8_counterexample :
    GroupEvents [] [kTraceContext] (some c8host) [] [] = none := rfl

/-- C8 (amended): the group-id write is best-effort — when the group-id slot
cannot be located, `SetGroupId` skips the write and the pass continues (the
session-run scenario completes with the event left unmodified) — but the
step-name write on a top-level-context root is not: with the step-name slot
missing, `AddStepName` fails instead of skipping. -/
theorem claim8_write_behavior :
    (∀ (v : XPlaneVisitor) (g : Int) (e : XEvent),
      v.GetStatMetadataId kGroupId = none → SetGroupId v g e = e) ∧
    (∀ (s : GroupState) (n : Nat) (name : String),
      (getNodeVisitor s n).GetStatMetadataId kStepName = none →
      addStepName s n name = none) ∧
    GroupEvents [] [kSessionRun] (some c8bhost) [] [] =
      some (⟨[⟨10, 0, 100, []⟩], [⟨c8bvisitor, 0, none, [], some 0⟩]⟩,
            [((0 : Int), "0")], some c8bhost, []) := by
  refine ⟨fun v g e h => ?_, fun s n name h => ?_, rfl⟩
  · unfold SetGroupId
    rw [h]
  · unfold addStepName
    rw [h]

/-- C8 witness: the two hypotheses of `claim8_write_behavior` hold at
concrete inputs. -/
theorem claim8_write_behavior_witness :
    SetGroupId ⟨[], [], []⟩ 0 default = default ∧
    addStepName emptyState 0 "x" = none :=
  ⟨claim8_write_behavior.1 ⟨[], [], []⟩ 0 default rfl,
   claim8_write_behavior.2.1 emptyState 0 "x" rfl⟩

/-! ## Claim C1: group-id stability (corrected) -/

/-- C1 counterexample: in the two-root scenario the shared descendant
(node 1) is first assigned group id 0 by the session-run root, but when the
function-run root is processed, `PropagateGroupId` overwrites it with 1 —
the first-assigned id does not stay in place. -/
theorem claim1_counterexample :
    (CreateEventGroup [kSessionRun] c1intra.2 c1linked []).map
        (fun r => getNodeGroupId r.1 1) = some (some 0) ∧
    (CreateEventGroup [kSessionRun, kFunctionRun] c1intra.2 c1linked []).map
        (fun r => getNodeGroupId r.1 1) = some (some 1) ∧
    ¬(((CreateEventGroup [kSessionRun, kFunctionRun] c1intra.2 c1linked []).map
        (fun r => getNodeGroupId r.1 1)) = some (some 0)) := by
  refine ⟨rfl, rfl, ?_⟩
  rw [show (CreateEventGroup [kSessionRun, kFunctionRun] c1intra.2 c1linked []).map
      (fun r => getNodeGroupId r.1 1) = some (some 1) from rfl]
  decide

/-! ## Claim C2: forest invariant (corrected) -/

/-- C2 counterexample: after `ConnectIntraThread` and `ConnectInterThread` on
the self-correlating scenario, node 1 sits in the child lists of the two
distinct parents 0 and 1 (the inter-thread override did not remove it from
its former parent's child list), and its parent back-reference points to
itself, so following parent references cycles. -/
theorem claim2_counterexample :
    getNodeChildren c2final 0 = [1] ∧
    getNodeChildren c2final 1 = [1] ∧
    getNodeParent c2final 1 = some 1 ∧
    (0 : Nat) ≠ 1 := ⟨rfl, rfl, rfl, by decide⟩

/-! ## Propagation overwrites (lemmas for the amended C1) -/

/-- Every group id written during a propagation of `g` is `g` itself: the fold
over the children preserves "the seed's id stays `g`" because the re-read of
`*group_id_` keeps returning `g`. -/
theorem propagateAux_fold_gid (fuel : Nat)
    (IH : ∀ (s : GroupState) (n : Nat) (g : Int) (m : Nat),
      getNodeGroupId (propagateGroupIdAux fuel s n g) m = getNodeGroupId s m ∨
      getNodeGroupId (propagateGroupIdAux fuel s n g) m = some g)
    (s0 : GroupState) (n : Nat) (g : Int) (l : List Nat) :
    ∀ t : GroupState,
      (∀ m, getNodeGroupId t m = getNodeGroupId s0 m ∨
        getNodeGroupId t m = some g) →
      getNodeGroupId t n = some g →
      (∀ m,
        getNodeGroupId
            (l.foldl (fun t c =>
              propagateGroupIdAux fuel t c ((getNodeGroupId t n).getD g)) t) m =
          getNodeGroupId s0 m ∨
        getNodeGroupId
            (l.foldl (fun t c =>
              propagateGroupIdAux fuel t c ((getNodeGroupId t n).getD g)) t) m =
          some g) ∧
      getNodeGroupId
          (l.foldl (fun t c =>
            propagateGroupIdAux fuel t c ((getNodeGroupId t n).getD g)) t) n =
        some g := by
  induction l with
  | nil => exact fun t h1 h2 => ⟨h1, h2⟩
  | cons c rest ih =>
    intro t h1 h2
    simp only [List.foldl_cons]
    have hstep : (getNodeGroupId t n).getD g = g := by rw [h2]; rfl
    rw [hstep]
    apply ih
    · intro m
      rcases IH t c g m with h | h
      · rw [h]; exact h1 m
      · exact Or.inr h
    · rcases IH t c g n with h | h
      · rw [h]; exact h2
      · exact h

/-- `PropagateGroupId` only ever writes the propagated id `g`: afterwards,
every node's group id is either unchanged or equal to `g`. -/
theorem gid_propagateAux (fuel : Nat) :
    ∀ (s : GroupState) (n : Nat) (g : Int) (m : Nat),
      getNodeGroupId (propagateGroupIdAux fuel s n g) m = getNodeGroupId s m ∨
      getNodeGroupId (propagateGroupIdAux fuel s n g) m = some g := by
  induction fuel with
  | zero => exact fun s n g m => Or.inl rfl
  | succ fuel IH =>
    intro s n g m
    unfold propagateGroupIdAux
    cases hn : s.nodes.get? n with
    | none => exact Or.inl rfl
    | some nd =>
      simp only
      have hsome : (s.nodes.get? n).isSome = true := by rw [hn]; rfl
      have h1 : ∀ m',
          getNodeGroupId
              ((setNodeGroupId s n g).modifyEvent nd.eventId
                (SetGroupId nd.visitor g)) m' =
            getNodeGroupId s m' ∨
          getNodeGroupId
              ((setNodeGroupId s n g).modifyEvent nd.eventId
                (SetGroupId nd.visitor g)) m' = some g := by
        intro m'
        rw [getNodeGroupId_modifyEvent, getNodeGroupId_setNodeGroupId]
        by_cases h : m' = n ∧ (s.nodes.get? n).isSome
        · rw [if_pos h]; exact Or.inr rfl
        · rw [if_neg h]; exact Or.inl rfl
      have h2 : getNodeGroupId
          ((setNodeGroupId s n g).modifyEvent nd.eventId
            (SetGroupId nd.visitor g)) n = some g := by
        rw [getNodeGroupId_modifyEvent, getNodeGroupId_setNodeGroupId,
          if_pos ⟨rfl, hsome⟩]
      exact (propagateAux_fold_gid fuel IH s n g nd.children _ h1 h2).1 m

/-- A root-bucket node that already carries a group id is skipped without any
state, name-map or counter change. -/
theorem processRootNode_skip (t : Nat) (acc : GroupState × EventGroupNameMap × Int)
    (n : Nat) (h : (getNodeGroupId acc.1 n).isSome = true) :
    processRootNode t acc n = some acc := by
  unfold processRootNode
  cases hg : getNodeGroupId acc.1 n with
  | none => rw [hg] at h; exact absurd h (by simp)
  | some g => simp only [hg]

theorem bucket_skip (t : Nat) (b : List Nat) :
    ∀ acc : GroupState × EventGroupNameMap × Int,
      (∀ n ∈ b, (getNodeGroupId acc.1 n).isSome = true) →
      b.foldlM (processRootNode t) acc = some acc := by
  induction b with
  | nil => exact fun acc _ => rfl
  | cons n rest ih =>
    intro acc h
    rw [List.foldlM_cons, processRootNode_skip t acc n (h n (List.mem_cons_self n rest))]
    exact ih acc (fun n' hn' => h n' (List.mem_cons_of_mem n hn'))

/-! ## Claim C1: amended theorem -/

/-- C1 (amended): group-id assignment is *not* stable under repeated
propagation — `PropagateGroupId` unconditionally overwrites, so a later call
reaching an already-assigned node replaces its id with the new one (part 1:
after propagating `g` into a valid node, that node's id is `g`, whatever it
was before). Only root-bucket nodes are protected: a root node that already
has an id when its turn comes is skipped, so if every root-bucket node is
already assigned, `CreateEventGroup` changes nothing (part 2). -/
theorem claim1_propagation_overwrites :
    (∀ (s : GroupState) (n : Nat) (g : Int), n < s.nodes.length →
      getNodeGroupId (propagateGroupId s n g) n = some g) ∧
    (∀ (rootEventTypes : List Nat) (enm : EventNodeMap) (s : GroupState)
       (nm : EventGroupNameMap),
      (∀ t ∈ rootEventTypes, ∀ b, enmFind? enm t = some b →
        ∀ n ∈ b, (getNodeGroupId s n).isSome = true) →
      CreateEventGroup rootEventTypes enm s nm = some (s, nm)) := by
  constructor
  · intro s n g h
    unfold propagateGroupId propagateGroupIdAux
    have hsome : (s.nodes.get? n).isSome = true := (get?_isSome_iff _ _).mpr h
    cases hn : s.nodes.get? n with
    | none => rw [hn] at hsome; exact absurd hsome (by simp)
    | some nd =>
      simp only
      have h1 : ∀ m',
          getNodeGroupId
              ((setNodeGroupId s n g).modifyEvent nd.eventId
                (SetGroupId nd.visitor g)) m' =
            getNodeGroupId s m' ∨
          getNodeGroupId
              ((setNodeGroupId s n g).modifyEvent nd.eventId
                (SetGroupId nd.visitor g)) m' = some g := by
        intro m'
        rw [getNodeGroupId_modifyEvent, getNodeGroupId_setNodeGroupId]
        by_cases hc : m' = n ∧ (s.nodes.get? n).isSome
        · rw [if_pos hc]; exact Or.inr rfl
        · rw [if_neg hc]; exact Or.inl rfl
      have h2 : getNodeGroupId
          ((setNodeGroupId s n g).modifyEvent nd.eventId
            (SetGroupId nd.visitor g)) n = some g := by
        rw [getNodeGroupId_modifyEvent, getNodeGroupId_setNodeGroupId,
          if_pos ⟨rfl, hsome⟩]
      exact (propagateAux_fold_gid s.nodes.length (gid_propagateAux s.nodes.length)
        s n g nd.children _ h1 h2).2
  · intro rootEventTypes enm s nm h
    unfold CreateEventGroup
    have hfold : rootEventTypes.foldlM
        (fun acc t =>
          match enmFind? enm t with
          | none => some acc
          | some bucket => bucket.foldlM (processRootNode t) acc)
        ((s, nm, (0 : Int)) : GroupState × EventGroupNameMap × Int) =
        some (s, nm, (0 : Int)) := by
      induction rootEventTypes with
      | nil => rfl
      | cons t rest ih =>
        rw [List.foldlM_cons]
        have hstep : (match enmFind? enm t with
            | none => some ((s, nm, (0 : Int)) : GroupState × EventGroupNameMap × Int)
            | some bucket => bucket.foldlM (processRootNode t) (s, nm, (0 : Int))) =
            some ((s, nm, (0 : Int)) : GroupState × EventGroupNameMap × Int) := by
          cases hf : enmFind? enm t with
          | none => rfl
          | some bucket =>
            exact bucket_skip t bucket (s, nm, 0)
              (fun n hn => h t (List.mem_cons_self t rest) bucket hf n hn)
        rw [hstep]
        exact ih (fun t' ht' b hb n hn => h t' (List.mem_cons_of_mem t ht') b hb n hn)
    rw [hfold]
    rfl

/-- C1 witness: the amended theorem applied at concrete inputs — propagating
group id 7 into node 0 of a one-node state sets its id to 7, and
`CreateEventGroup` on a fully-assigned state is the identity. -/
theorem claim1_propagation_overwrites_witness :
    getNodeGroupId
        (propagateGroupId ⟨[⟨9, 0, 1, []⟩], [⟨⟨[], [], []⟩, 0, none, [], some 3⟩]⟩ 0 7) 0 =
      some 7 ∧
    CreateEventGroup [kSessionRun]
        [(kSessionRun, [0])]
        ⟨[⟨9, 0, 1, []⟩], [⟨⟨[], [], []⟩, 0, none, [], some 3⟩]⟩ [] =
      some (⟨[⟨9, 0, 1, []⟩], [⟨⟨[], [], []⟩, 0, none, [], some 3⟩]⟩, []) :=
  ⟨claim1_propagation_overwrites.1 _ 0 7 (by decide),
   claim1_propagation_overwrites.2 [kSessionRun] _ _ []
     (by intro t ht b hb n hn
         have ht' : t = kSessionRun := List.mem_singleton.mp ht
         subst ht'
         have hb' : ([0] : List Nat) = b :=
           Option.some_inj.mp
             ((show enmFind? [(kSessionRun, [0])] kSessionRun = some [0] from
               rfl).symm.trans hb)
         subst hb'
         have hn' : n = 0 := List.mem_singleton.mp hn
         subst hn'
         rfl)⟩

/-! ## The pop-and-link loop, and the intra-thread forest invariant -/

theorem mem_dropWhile {α : Type} (p : α → Bool) (l : List α) (x : α) :
    x ∈ l.dropWhile p → x ∈ l := by
  induction l with
  | nil => exact fun h => h
  | cons a t ih =>
    simp only [List.dropWhile]
    cases hpa : p a
    · exact fun h => h
    · exact fun h => List.mem_cons_of_mem a (ih h)

theorem head_dropWhile_eq_false {α : Type} (p : α → Bool) (l : List α) (a : α)
    (rest : List α) (h : l.dropWhile p = a :: rest) : p a = false := by
  induction l with
  | nil => exact absurd h (by simp)
  | cons b t ih =>
    revert h
    simp only [List.dropWhile]
    cases hpb : p b
    · intro h
      cases h
      exact hpb
    · exact fun h => ih h

theorem dropWhile_is_suffix_chain {α : Type} (p : α → Bool) (l : List α) :
    ∃ pre, l = pre ++ l.dropWhile p := by
  induction l with
  | nil => exact ⟨[], rfl⟩
  | cons a t ih =>
    simp only [List.dropWhile]
    cases hpa : p a
    · exact ⟨[], rfl⟩
    · obtain ⟨pre, hpre⟩ := ih
      exact ⟨a :: pre, by rw [List.cons_append, ← hpre]⟩

/-- The pop-and-link loop pops exactly the candidates that do not temporally
contain the new event, and links the new node under the surviving top. -/
theorem linkOnStack_eq (s : GroupState) (nid : Nat) (e : XEvent) (stk : List Nat) :
    linkOnStack s nid e stk =
      match stk.dropWhile (fun x => !(IsNested e (nodeEventD s x))) with
      | [] => (s, [])
      | top :: rest => (setParent (addChild s top nid) nid top, top :: rest) := by
  induction stk with
  | nil => rfl
  | cons top rest ih =>
    cases h : IsNested e (nodeEventD s top) with
    | true => simp [linkOnStack, List.dropWhile, h]
    | false => simp [linkOnStack, List.dropWhile, h, ih]

theorem nodes_length_setParent (s : GroupState) (c p : Nat) :
    (setParent s c p).nodes.length = s.nodes.length :=
  nodes_length_modifyNode s c _

theorem nodes_length_addChild (s : GroupState) (a b : Nat) :
    (addChild s a b).nodes.length = s.nodes.length :=
  nodes_length_modifyNode s a _

theorem linkOnStack_fst_nodes_length (s : GroupState) (nid : Nat) (e : XEvent)
    (stk : List Nat) :
    (linkOnStack s nid e stk).1.nodes.length = s.nodes.length := by
  rw [linkOnStack_eq]
  cases stk.dropWhile (fun x => !(IsNested e (nodeEventD s x))) with
  | nil => rfl
  | cons top rest => simp [nodes_length_setParent, nodes_length_addChild]

theorem getNodeParent_appendNode (s : GroupState) (e : XEvent) (nd : EventNode)
    (m : Nat) :
    getNodeParent { s with events := s.events ++ [e], nodes := s.nodes ++ [nd] } m =
      if m = s.nodes.length then some nd.parent |>.bind id else getNodeParent s m := by
  unfold getNodeParent
  simp only
  rw [get?_snoc]
  by_cases h : m = s.nodes.length
  · simp [h]
  · simp [h]

theorem pd_processEvent (v : XPlaneVisitor) (s : GroupState) (m : EventNodeMap)
    (stk : List Nat) (e : XEvent)
    (hpd : ParentsDecrease s) (hsb : ∀ x ∈ stk, x < s.nodes.length) :
    ParentsDecrease (processEvent v (s, m, stk) e).1 ∧
    (∀ x ∈ (processEvent v (s, m, stk) e).2.2,
      x < (processEvent v (s, m, stk) e).1.nodes.length) ∧
    (processEvent v (s, m, stk) e).1.nodes.length = s.nodes.length + 1 := by
  have hfst : (processEvent v (s, m, stk) e).1 =
      (linkOnStack
        { s with events := s.events ++ [e],
                 nodes := s.nodes ++ [⟨v, s.events.length, none, [], none⟩] }
        s.nodes.length e stk).1 := rfl
  have hstk : (processEvent v (s, m, stk) e).2.2 =
      s.nodes.length ::
        (linkOnStack
          { s with events := s.events ++ [e],
                   nodes := s.nodes ++ [⟨v, s.events.length, none, [], none⟩] }
          s.nodes.length e stk).2 := rfl
  set s1 : GroupState :=
    { s with events := s.events ++ [e],
             nodes := s.nodes ++ [⟨v, s.events.length, none, [], none⟩] } with hs1
  have hlen1 : s1.nodes.length = s.nodes.length + 1 := by
    rw [hs1]; simp
  have hpd1 : ParentsDecrease s1 := by
    intro n q h
    rw [getNodeParent_appendNode] at h
    by_cases hn : n = s.nodes.length
    · rw [if_pos hn] at h
      exact absurd h (by simp)
    · rw [if_neg hn] at h
      exact hpd n q h
  have hnodeD : ∀ x, nodeEventD s1 x = nodeEventD s1 x := fun _ => rfl
  rw [hfst, hstk, linkOnStack_eq]
  cases hdrop : stk.dropWhile (fun x => !(IsNested e (nodeEventD s1 x))) with
  | nil =>
    refine ⟨hpd1, ?_, hlen1⟩
    intro x hx
    rcases List.mem_singleton.mp hx with rfl
    rw [hlen1]
    exact Nat.lt_succ_self _
  | cons top rest =>
    have htop : top ∈ stk := mem_dropWhile _ _ _ (hdrop ▸ List.mem_cons_self top rest)
    have htoplt : top < s.nodes.length := hsb top htop
    constructor
    · intro n q h
      rw [getNodeParent_setParent] at h
      by_cases hn : n = s.nodes.length ∧
          ((addChild s1 top s.nodes.length).nodes.get? s.nodes.length).isSome
      · rw [if_pos hn] at h
        cases h
        rw [hn.1]
        exact htoplt
      · rw [if_neg hn] at h
        rw [getNodeParent_addChild] at h
        exact hpd1 n q h
    constructor
    · intro x hx
      rw [nodes_length_setParent, nodes_length_addChild, hlen1]
      rcases hx with _ | hx
      · exact Nat.lt_succ_self _
      · rename_i hx
        have : x ∈ stk := by
          rcases hx with _ | hx
          · exact htop
          · rename_i hx'
            exact mem_dropWhile _ _ _ (hdrop ▸ List.mem_cons_of_mem top hx')
        exact Nat.lt_succ_of_lt (hsb x this)
    · rw [nodes_length_setParent, nodes_length_addChild, hlen1]

theorem pd_foldEvents (v : XPlaneVisitor) (events : List XEvent) :
    ∀ (acc : GroupState × EventNodeMap × List Nat),
      ParentsDecrease acc.1 → (∀ x ∈ acc.2.2, x < acc.1.nodes.length) →
      ParentsDecrease (events.foldl (processEvent v) acc).1 := by
  induction events with
  | nil => exact fun acc h _ => h
  | cons e rest ih =>
    intro acc h hsb
    rw [List.foldl_cons]
    have hstep := pd_processEvent v acc.1 acc.2.1 acc.2.2 e h hsb
    exact ih (processEvent v acc e) hstep.1 hstep.2.1

theorem pd_processLine (v : XPlaneVisitor) (acc : GroupState × EventNodeMap)
    (line : XLine) (h : ParentsDecrease acc.1) :
    ParentsDecrease (processLine v acc line).1 :=
  pd_foldEvents v line.events (acc.1, acc.2, []) h (by intro x hx; cases hx)

theorem pd_ConnectIntraThread (v : XPlaneVisitor) (p : XPlane) :
    ∀ acc : GroupState × EventNodeMap, ParentsDecrease acc.1 →
      ParentsDecrease (ConnectIntraThread v p acc).1 := by
  unfold ConnectIntraThread
  induction p.lines with
  | nil => exact fun acc h => h
  | cons l rest ih =>
    intro acc h
    rw [List.foldl_cons]
    exact ih (processLine v acc l) (pd_processLine v acc l h)

theorem reach_root_of_pd (s : GroupState) (hpd : ParentsDecrease s) :
    ∀ n, ∃ k m, k ≤ n ∧ iterParent s k n = some m ∧ getNodeParent s m = none := by
  intro n
  induction n using Nat.strong_induction_on with
  | _ n ih =>
    cases hp : getNodeParent s n with
    | none => exact ⟨0, n, Nat.zero_le n, rfl, hp⟩
    | some q =>
      have hq : q < n := hpd n q hp
      obtain ⟨k, m, hk, hit, hm⟩ := ih q hq
      refine ⟨k + 1, m, by omega, ?_, hm⟩
      simpa [iterParent, hp] using hit

/-! ## Inter-thread linking only appends to child lists -/

theorem childrenExtend_linkStep (cmap : ConnectMap) (sts : List Nat)
    (s : GroupState) (c : Nat) (n : Nat) :
    ∃ t, getNodeChildren (linkChildStep cmap sts s c) n =
      getNodeChildren s n ++ t := by
  unfold linkChildStep
  cases hr : resolveKey s c sts with
  | none => exact ⟨[], by simp⟩
  | some key =>
    show ∃ t, getNodeChildren
        (match cmapFind? cmap key with
         | none => s
         | some p => setParent (addChild s p c) c p) n =
      getNodeChildren s n ++ t
    cases hf : cmapFind? cmap key with
    | none => exact ⟨[], by simp⟩
    | some p =>
      refine ⟨if n = p ∧ (s.nodes.get? p).isSome = true then [c] else [], ?_⟩
      show getNodeChildren (setParent (addChild s p c) c p) n = _
      rw [getNodeChildren_setParent, getNodeChildren_addChild]
      by_cases hn : n = p ∧ (s.nodes.get? p).isSome = true
      · rw [if_pos hn, if_pos hn, hn.1]
      · rw [if_neg hn, if_neg hn, List.append_nil]

theorem childrenExtend_linkChildren (cmap : ConnectMap) (sts : List Nat)
    (bucket : List Nat) :
    ∀ (s : GroupState) (n : Nat),
      ∃ t, getNodeChildren (linkChildren cmap sts s bucket) n =
        getNodeChildren s n ++ t := by
  induction bucket with
  | nil => exact fun s n => ⟨[], by simp [linkChildren]⟩
  | cons c rest ih =>
    intro s n
    obtain ⟨t1, ht1⟩ := childrenExtend_linkStep cmap sts s c n
    obtain ⟨t2, ht2⟩ := ih (linkChildStep cmap sts s c) n
    refine ⟨t1 ++ t2, ?_⟩
    have hfold : linkChildren cmap sts s (c :: rest) =
        linkChildren cmap sts (linkChildStep cmap sts s c) rest := by
      unfold linkChildren
      rw [List.foldl_cons]
    rw [hfold, ht2, ht1, List.append_assoc]

theorem childrenExtend_processRule (enm : EventNodeMap) (s : GroupState)
    (ci : InterThreadConnectInfo) (n : Nat) :
    ∃ t, getNodeChildren (processRule enm s ci) n = getNodeChildren s n ++ t := by
  unfold processRule
  cases enmFind? enm ci.childEventType with
  | none => exact ⟨[], by simp⟩
  | some bucket => exact childrenExtend_linkChildren _ ci.statTypes bucket s n

theorem childrenExtend_ConnectInterThread (enm : EventNodeMap)
    (cis : List InterThreadConnectInfo) :
    ∀ (s : GroupState) (n : Nat),
      ∃ t, getNodeChildren (ConnectInterThread enm s cis) n =
        getNodeChildren s n ++ t := by
  induction cis with
  | nil => exact fun s n => ⟨[], by simp [ConnectInterThread]⟩
  | cons ci rest ih =>
    intro s n
    unfold ConnectInterThread
    rw [List.foldl_cons]
    obtain ⟨t1, ht1⟩ := childrenExtend_processRule enm s ci n
    obtain ⟨t2, ht2⟩ := ih (processRule enm s ci) n
    exact ⟨t1 ++ t2, by
      rw [show (ConnectInterThread enm (processRule enm s ci) rest) =
        List.foldl (processRule enm) (processRule enm s ci) rest from rfl] at ht2
      rw [ht2, ht1, List.append_assoc]⟩

/-! ## Claim C2: amended theorem -/

/-- C2 (amended): after `ConnectIntraThread` alone the parent relation is a
forest — every parent back-reference points to a strictly smaller node id
(part 1), so following parent references from any node never cycles and
reaches a parentless node in a bounded number of steps (part 2, for any state
with decreasing parents). `ConnectInterThread`, however, only appends to
child lists: an inter-thread link overwrites the child's parent
back-reference but never removes the child from its former parent's child
list (part 3), so after both passes a node can sit in two parents' child
lists — and, as the counterexample shows, parent references can even cycle. -/
theorem claim2_intra_forest :
    (∀ (v : XPlaneVisitor) (p : XPlane) (m0 : EventNodeMap) (s0 : GroupState),
      ParentsDecrease s0 →
      ParentsDecrease (ConnectIntraThread v p (s0, m0)).1) ∧
    (∀ s : GroupState, ParentsDecrease s →
      ∀ n, ∃ k m, k ≤ n ∧ iterParent s k n = some m ∧
        getNodeParent s m = none) ∧
    (∀ (enm : EventNodeMap) (s : GroupState)
       (cis : List InterThreadConnectInfo) (n : Nat),
      ∃ t, getNodeChildren (ConnectInterThread enm s cis) n =
        getNodeChildren s n ++ t) :=
  ⟨fun v p m0 s0 h => pd_ConnectIntraThread v p (s0, m0) h,
   fun s h n => reach_root_of_pd s h n,
   fun enm s cis n => childrenExtend_ConnectInterThread enm cis s n⟩

/-- C2 witness: the amended theorem applied to the counterexample scenario —
the intra-thread pass on the two-event line yields decreasing parents, node 1
reaches the parentless node 0 in one step, and the inter pass only appended
to node 0's child list. -/
theorem claim2_intra_forest_witness :
    ParentsDecrease c2intra.1 ∧
    (∃ k m, k ≤ 1 ∧ iterParent c2intra.1 k 1 = some m ∧
      getNodeParent c2intra.1 m = none) ∧
    (∃ t, getNodeChildren c2final 0 = getNodeChildren c2intra.1 0 ++ t) :=
  ⟨claim2_intra_forest.1 c2visitor
      ⟨c2visitor, [⟨[⟨99, 0, 100, []⟩, ⟨11, 10, 80, [⟨1, .int64 7⟩]⟩]⟩]⟩
      (CreateEventNodeMap c2rules []) emptyState (fun _ _ h => nomatch h),
   claim2_intra_forest.2.1 c2intra.1
     (claim2_intra_forest.1 c2visitor
       ⟨c2visitor, [⟨[⟨99, 0, 100, []⟩, ⟨11, 10, 80, [⟨1, .int64 7⟩]⟩]⟩]⟩
       (CreateEventNodeMap c2rules []) emptyState (fun _ _ h => nomatch h)) 1,
   claim2_intra_forest.2.2 c2intra.2 c2intra.1 c2rules 0⟩

/-! ## Event-node-map lemmas -/

theorem enmFind?_cons (pk : Nat) (pb : List Nat) (rest : EventNodeMap) (k : Nat) :
    enmFind? ((pk, pb) :: rest) k = if pk = k then some pb else enmFind? rest k := by
  by_cases h : pk = k
  · simp [enmFind?, List.find?_cons_of_pos, h]
  · simp [enmFind?, List.find?_cons_of_neg, h]

theorem enmFind?_pushExisting (m : EventNodeMap) (k v k' : Nat) :
    enmFind? (enmPushExisting m k v) k' =
      (enmFind? m k').map (fun b => if k' = k then b ++ [v] else b) := by
  induction m with
  | nil => rfl
  | cons p rest ih =>
    rcases p with ⟨pk, pb⟩
    show enmFind?
        ((if pk = k then (pk, pb ++ [v]) else (pk, pb)) :: enmPushExisting rest k v)
        k' = _
    by_cases hk : pk = k
    · rw [if_pos hk, enmFind?_cons, enmFind?_cons]
      by_cases hk' : pk = k'
      · rw [if_pos hk', if_pos hk']
        have : k' = k := hk'.symm.trans hk
        simp [this]
      · rw [if_neg hk', if_neg hk']
        exact ih
    · rw [if_neg hk, enmFind?_cons, enmFind?_cons]
      by_cases hk' : pk = k'
      · rw [if_pos hk', if_pos hk']
        have : ¬(k' = k) := fun h => hk (hk'.trans h)
        simp [this]
      · rw [if_neg hk', if_neg hk']
        exact ih

theorem enmContains_pushExisting (m : EventNodeMap) (k v k' : Nat) :
    enmContains (enmPushExisting m k v) k' = enmContains m k' := by
  unfold enmContains
  rw [enmFind?_pushExisting]
  cases enmFind? m k' <;> rfl

theorem enmFind?_append_single (m : EventNodeMap) (k : Nat) (b : List Nat)
    (h : enmFind? m k = none) : enmFind? (m ++ [(k, b)]) k = some b := by
  induction m with
  | nil => simp [enmFind?_cons]
  | cons p rest ih =>
    rcases p with ⟨pk, pb⟩
    rw [List.cons_append, enmFind?_cons]
    rw [enmFind?_cons] at h
    by_cases hk : pk = k
    · rw [if_pos hk] at h
      exact absurd h (by simp)
    · rw [if_neg hk] at h ⊢
      exact ih h

theorem enmFind?_pushCreate_self (m : EventNodeMap) (k v : Nat) :
    enmFind? (enmPushCreate m k v) k =
      some ((enmFind? m k).getD [] ++ [v]) := by
  unfold enmPushCreate
  cases hc : enmContains m k with
  | true =>
    rw [if_pos rfl]
    rw [enmFind?_pushExisting]
    unfold enmContains at hc
    cases hf : enmFind? m k with
    | none => rw [hf] at hc; exact absurd hc (by simp)
    | some b => simp
  | false =>
    rw [if_neg (by simp)]
    unfold enmContains at hc
    cases hf : enmFind? m k with
    | some b => rw [hf] at hc; exact absurd hc (by simp)
    | none => rw [enmFind?_append_single m k [v] hf]; rfl

/-! ## Kernel-event classification lemmas -/

theorem kernelFlags_foldl (v : XPlaneVisitor) (l : List XStat) :
    ∀ a b : Bool,
      l.foldl (fun (acc : Bool × Bool) stat =>
        if v.GetStatType stat = some kCorrelationId then (true, acc.2)
        else if v.GetStatType stat = some kDeviceId then (acc.1, true)
        else acc) (a, b) =
      (a || l.any (fun st => decide (v.GetStatType st = some kCorrelationId)),
       b || l.any (fun st => decide (v.GetStatType st = some kDeviceId))) := by
  induction l with
  | nil => intro a b; simp
  | cons st rest ih =>
    intro a b
    rw [List.foldl_cons, List.any_cons, List.any_cons]
    have hne1 : (kCorrelationId = kDeviceId) = False := by
      simp [kCorrelationId, kDeviceId]
    have hne2 : (kDeviceId = kCorrelationId) = False := by
      simp [kCorrelationId, kDeviceId]
    by_cases h1 : v.GetStatType st = some kCorrelationId
    · have h2 : ¬v.GetStatType st = some kDeviceId := by
        rw [h1]; decide
      simp [h1, h2, ih, hne1, hne2]
    · by_cases h2 : v.GetStatType st = some kDeviceId
      · simp [h1, h2, ih, hne1, hne2]
      · simp [h1, h2, ih]

theorem GetKernelEventType_eq (v : XPlaneVisitor) (e : XEvent) :
    GetKernelEventType v e =
      (if e.stats.any (fun st => decide (v.GetStatType st = some kCorrelationId)) then
        some (if e.stats.any (fun st => decide (v.GetStatType st = some kDeviceId))
              then kKernelLaunch else kKernelExecute)
       else none) := by
  unfold GetKernelEventType
  rw [kernelFlags_foldl]
  simp

/-- The map component of one intra-thread step, read off the definition. -/
theorem processEvent_map_eq (v : XPlaneVisitor) (s : GroupState)
    (m : EventNodeMap) (stk : List Nat) (e : XEvent) :
    (processEvent v (s, m, stk) e).2.1 =
      (if enmContains
            (enmPushExisting m ((v.GetEventType e).getD kUnknownHostEventType)
              s.nodes.length) kKernelLaunch
          || enmContains
            (enmPushExisting m ((v.GetEventType e).getD kUnknownHostEventType)
              s.nodes.length) kKernelExecute then
        match GetKernelEventType v e with
        | some t =>
          enmPushCreate
            (enmPushExisting m ((v.GetEventType e).getD kUnknownHostEventType)
              s.nodes.length) t s.nodes.length
        | none =>
          enmPushExisting m ((v.GetEventType e).getD kUnknownHostEventType)
            s.nodes.length
      else
        enmPushExisting m ((v.GetEventType e).getD kUnknownHostEventType)
          s.nodes.length) := rfl

/-! ## Claim C9: synthetic kernel-event classification -/

/-- C9: an event with a correlation-id stat and no device-id stat is
classified as kernel-execute, one with both as kernel-launch, one without a
correlation id as neither; the attribute scan runs only when at least one of
the two synthetic buckets is present in the index (otherwise the step's map
update is exactly the declared-type push), and a classified node is appended
to the bucket of its synthetic type (created on demand). -/
theorem claim9_kernel_classification :
    (∀ (v : XPlaneVisitor) (e : XEvent),
      (GetKernelEventType v e = some kKernelLaunch ↔
        (∃ st ∈ e.stats, v.GetStatType st = some kCorrelationId) ∧
        (∃ st ∈ e.stats, v.GetStatType st = some kDeviceId)) ∧
      (GetKernelEventType v e = some kKernelExecute ↔
        (∃ st ∈ e.stats, v.GetStatType st = some kCorrelationId) ∧
        ¬(∃ st ∈ e.stats, v.GetStatType st = some kDeviceId)) ∧
      (GetKernelEventType v e = none ↔
        ¬(∃ st ∈ e.stats, v.GetStatType st = some kCorrelationId))) ∧
    (∀ (v : XPlaneVisitor) (s : GroupState) (m : EventNodeMap) (stk : List Nat)
       (e : XEvent),
      enmContains m kKernelLaunch = false → enmContains m kKernelExecute = false →
      (processEvent v (s, m, stk) e).2.1 =
        enmPushExisting m ((v.GetEventType e).getD kUnknownHostEventType)
          s.nodes.length) ∧
    (∀ (v : XPlaneVisitor) (s : GroupState) (m : EventNodeMap) (stk : List Nat)
       (e : XEvent) (t : Nat),
      (enmContains m kKernelLaunch || enmContains m kKernelExecute) = true →
      GetKernelEventType v e = some t →
      enmFind? (processEvent v (s, m, stk) e).2.1 t =
        some ((enmFind?
            (enmPushExisting m ((v.GetEventType e).getD kUnknownHostEventType)
              s.nodes.length) t).getD [] ++ [s.nodes.length])) := by
  refine ⟨fun v e => ?_, fun v s m stk e h1 h2 => ?_, fun v s m stk e t hg ht => ?_⟩
  · rw [GetKernelEventType_eq]
    cases hc : e.stats.any (fun st => decide (v.GetStatType st = some kCorrelationId)) with
    | false =>
      have hc' : ¬∃ st ∈ e.stats, v.GetStatType st = some kCorrelationId := by
        intro hex
        rw [show (∃ st ∈ e.stats, v.GetStatType st = some kCorrelationId) ↔
            e.stats.any (fun st => decide (v.GetStatType st = some kCorrelationId)) = true by
          simp] at hex
        rw [hc] at hex
        exact absurd hex (by simp)
      simp [hc, hc', kKernelLaunch, kKernelExecute]
    | true =>
      have hc' : ∃ st ∈ e.stats, v.GetStatType st = some kCorrelationId := by
        rw [show (∃ st ∈ e.stats, v.GetStatType st = some kCorrelationId) ↔
            e.stats.any (fun st => decide (v.GetStatType st = some kCorrelationId)) = true by
          simp]
        exact hc
      cases hd : e.stats.any (fun st => decide (v.GetStatType st = some kDeviceId)) with
      | false =>
        have hd' : ¬∃ st ∈ e.stats, v.GetStatType st = some kDeviceId := by
          intro hex
          rw [show (∃ st ∈ e.stats, v.GetStatType st = some kDeviceId) ↔
              e.stats.any (fun st => decide (v.GetStatType st = some kDeviceId)) = true by
            simp] at hex
          rw [hd] at hex
          exact absurd hex (by simp)
        simp [hc, hd, hc', hd', kKernelLaunch, kKernelExecute]
      | true =>
        have hd' : ∃ st ∈ e.stats, v.GetStatType st = some kDeviceId := by
          rw [show (∃ st ∈ e.stats, v.GetStatType st = some kDeviceId) ↔
              e.stats.any (fun st => decide (v.GetStatType st = some kDeviceId)) = true by
            simp]
          exact hd
        simp [hc, hd, hc', hd', kKernelLaunch, kKernelExecute]
  · rw [processEvent_map_eq]
    rw [enmContains_pushExisting, enmContains_pushExisting, h1, h2]
    rfl
  · rw [processEvent_map_eq]
    rw [enmContains_pushExisting, enmContains_pushExisting, hg, if_pos rfl, ht]
    exact enmFind?_pushCreate_self _ t s.nodes.length

/-- C9 witness: the three parts applied at concrete inputs — an event with a
correlation id and no device id classifies as kernel-execute; with neither
synthetic bucket tracked the step's map is the declared push alone; with a
bucket tracked the classified node is appended to its synthetic bucket. -/
theorem claim9_kernel_classification_witness :
    GetKernelEventType ⟨[], [(1, kCorrelationId)], []⟩ ⟨0, 0, 1, [⟨1, .int64 5⟩]⟩ =
      some kKernelExecute ∧
    (processEvent ⟨[], [(1, kCorrelationId)], []⟩
        (emptyState, [(kSessionRun, [])], []) ⟨0, 0, 1, [⟨1, .int64 5⟩]⟩).2.1 =
      enmPushExisting [(kSessionRun, [])] kUnknownHostEventType 0 ∧
    enmFind? (processEvent ⟨[], [(1, kCorrelationId)], []⟩
        (emptyState, [(kKernelExecute, [])], []) ⟨0, 0, 1, [⟨1, .int64 5⟩]⟩).2.1
        kKernelExecute =
      some ((enmFind? (enmPushExisting [(kKernelExecute, [])]
          kUnknownHostEventType 0) kKernelExecute).getD [] ++ [0]) :=
  ⟨((claim9_kernel_classification.1 ⟨[], [(1, kCorrelationId)], []⟩
      ⟨0, 0, 1, [⟨1, .int64 5⟩]⟩).2.1).mpr
    (by refine ⟨⟨⟨1, .int64 5⟩, by simp, rfl⟩, ?_⟩
        intro ⟨st, hst, habs⟩
        rcases List.mem_singleton.mp hst with rfl
        exact absurd habs (by simp [XPlaneVisitor.GetStatType, kCorrelationId, kDeviceId])),
   claim9_kernel_classification.2.1 ⟨[], [(1, kCorrelationId)], []⟩ emptyState
     [(kSessionRun, [])] [] ⟨0, 0, 1, [⟨1, .int64 5⟩]⟩ rfl rfl,
   claim9_kernel_classification.2.2 ⟨[], [(1, kCorrelationId)], []⟩ emptyState
     [(kKernelExecute, [])] [] ⟨0, 0, 1, [⟨1, .int64 5⟩]⟩ kKernelExecute rfl
     (by rw [GetKernelEventType_eq]; rfl)⟩

/-! ## Key-resolution lemmas -/

theorem resolveKey_isSome (s : GroupState) (n : Nat) (sts : List Nat) :
    (resolveKey s n sts).isSome = true ↔
      ∀ st ∈ sts, (getContextStat s n st).isSome = true := by
  induction sts with
  | nil => simp [resolveKey]
  | cons st rest ih =>
    simp only [resolveKey, List.forall_mem_cons]
    cases h : getContextStat s n st with
    | none => simp
    | some stat =>
      cases h2 : resolveKey s n rest with
      | none => simp [← ih, h2]
      | some l => simp [← ih, h2]

/-! ## Claim C10: string-valued key attributes -/

/-- C10: a key attribute resolving to a string-valued stat does not skip the
candidate: the key component is read from the unsigned-integer field, which
is 0 for a string-valued stat, so string-keyed candidates all get key
component 0 and coincide with genuine zero-valued integer keys; in the
concrete scenario the parent keyed by string "x" and the child keyed by
string "y" are correlated. -/
theorem claim10_string_keys :
    (∀ (mid : Nat) (str : String), keyComponent ⟨mid, .str str⟩ = 0) ∧
    (∀ st : XStat, st.isInt64Case = false →
      keyComponent st = uint64ToInt64 st.uint64Value) ∧
    (∀ (s : GroupState) (n : Nat) (sts : List Nat),
      (∀ st ∈ sts, (getContextStat s n st).isSome = true) →
      (resolveKey s n sts).isSome = true) ∧
    resolveKey c10intra.1 0 [kStepId] = some [0] ∧
    resolveKey c10intra.1 1 [kStepId] = some [0] ∧
    getNodeParent c10final 1 = some 0 ∧
    getNodeChildren c10final 0 = [1] := by
  refine ⟨fun mid str => rfl, fun st h => ?_,
    fun s n sts h => (resolveKey_isSome s n sts).mpr h, rfl, rfl, rfl, rfl⟩
  simp [keyComponent, h]

/-- C10 witness: the second and third parts applied at concrete inputs — a
uint64 stat keeps its value as key component, and the key of node 0 in the
scenario resolves because its (string-valued) step-id stat is present. -/
theorem claim10_string_keys_witness :
    keyComponent ⟨1, .uint64 5⟩ = uint64ToInt64 (XStat.uint64Value ⟨1, .uint64 5⟩) ∧
    (resolveKey c10intra.1 0 [kStepId]).isSome = true :=
  ⟨claim10_string_keys.2.1 ⟨1, .uint64 5⟩ rfl,
   claim10_string_keys.2.2.1 c10intra.1 0 [kStepId]
     (by intro st hst
         have : st = kStepId := List.mem_singleton.mp hst
         subst this
         rfl)⟩

/-! ## Connect-map lemmas -/

theorem cmapFind?_cons (pk : List Int) (pv : Nat) (rest : ConnectMap)
    (k : List Int) :
    cmapFind? ((pk, pv) :: rest) k =
      if pk = k then some pv else cmapFind? rest k := by
  by_cases h : pk = k
  · simp [cmapFind?, List.find?_cons_of_pos, h]
  · simp [cmapFind?, List.find?_cons_of_neg, h]

theorem cmapFind?_update (m : ConnectMap) (k : List Int) (v : Nat)
    (k' : List Int) :
    cmapFind? (m.map (fun p => if p.1 = k then (p.1, v) else p)) k' =
      if k' = k then (cmapFind? m k).map (fun _ => v) else cmapFind? m k' := by
  induction m with
  | nil => by_cases h : k' = k <;> simp [cmapFind?, h]
  | cons p rest ih =>
    rcases p with ⟨pk, pv⟩
    simp only [List.map_cons]
    by_cases hk : pk = k
    · subst hk
      rw [if_pos rfl]
      by_cases hk' : pk = k'
      · subst hk'
        simp [cmapFind?_cons, ih]
      · have hk'' : ¬k' = pk := fun h => hk' h.symm
        simp [cmapFind?_cons, hk', hk'', ih]
    · by_cases hk' : pk = k'
      · subst hk'
        have hkk : ¬pk = k := hk
        simp [cmapFind?_cons, hk, hkk, ih]
      · have hk'' : ¬k' = pk := fun h => hk' h.symm
        simp [cmapFind?_cons, hk, hk', hk'', ih]

theorem cmapFind?_append_single (m : ConnectMap) (k : List Int) (v : Nat)
    (h : cmapFind? m k = none) : cmapFind? (m ++ [(k, v)]) k = some v := by
  induction m with
  | nil => simp [cmapFind?_cons]
  | cons p rest ih =>
    rcases p with ⟨pk, pb⟩
    rw [List.cons_append, cmapFind?_cons]
    rw [cmapFind?_cons] at h
    by_cases hk : pk = k
    · rw [if_pos hk] at h
      exact absurd h (by simp)
    · rw [if_neg hk] at h ⊢
      exact ih h

theorem cmapFind?_append_ne (m : ConnectMap) (k : List Int) (v : Nat)
    (k' : List Int) (h : ¬k' = k) :
    cmapFind? (m ++ [(k, v)]) k' = cmapFind? m k' := by
  induction m with
  | nil =>
    simp only [List.nil_append, cmapFind?_cons]
    rw [if_neg (fun hkk => h hkk.symm)]
  | cons p rest ih =>
    rcases p with ⟨pk, pb⟩
    rw [List.cons_append, cmapFind?_cons, cmapFind?_cons]
    by_cases hk : pk = k'
    · rw [if_pos hk, if_pos hk]
    · rw [if_neg hk, if_neg hk]
      exact ih

theorem cmapFind?_set (m : ConnectMap) (k : List Int) (v : Nat) (k' : List Int) :
    cmapFind? (cmapSet m k v) k' = if k' = k then some v else cmapFind? m k' := by
  unfold cmapSet
  cases hc : (cmapFind? m k).isSome with
  | true =>
    rw [if_pos rfl, cmapFind?_update]
    by_cases hkk : k' = k
    · rw [if_pos hkk, if_pos hkk]
      cases hf : cmapFind? m k with
      | none => rw [hf] at hc; exact absurd hc (by simp)
      | some p => rfl
    · rw [if_neg hkk, if_neg hkk]
  | false =>
    rw [if_neg (by simp [hc])]
    by_cases hkk : k' = k
    · subst hkk
      have hnone : cmapFind? m k' = none := by
        cases hf : cmapFind? m k' with
        | none => rfl
        | some p => rw [hf] at hc; exact absurd hc (by simp)
      rw [if_pos rfl]
      exact cmapFind?_append_single m k' v hnone
    · rw [if_neg hkk]
      exact cmapFind?_append_ne m k v k' hkk

/-! ## Last-write-wins and child-linking characterization (C4) -/

theorem buildConnectMap_lastWins (s : GroupState) (sts : List Nat)
    (bucket : List Nat) (key : List Int) :
    cmapFind? (buildConnectMap s sts bucket) key =
      (bucket.filter (fun n => resolveKey s n sts = some key)).getLast? := by
  induction bucket using List.reverseRecOn with
  | nil => rfl
  | append_singleton pre n ih =>
    have hfold : buildConnectMap s sts (pre ++ [n]) =
        buildStep s sts (buildConnectMap s sts pre) n := by
      unfold buildConnectMap
      rw [List.foldl_append, List.foldl_cons, List.foldl_nil]
    rw [hfold, List.filter_append]
    unfold buildStep
    cases hr : resolveKey s n sts with
    | none =>
      have hfilter : List.filter (fun n => resolveKey s n sts = some key) [n] = [] := by
        simp [hr]
      rw [hfilter, List.append_nil]
      exact ih
    | some key' =>
      show cmapFind? (cmapSet (buildConnectMap s sts pre) key' n) key = _
      rw [cmapFind?_set]
      by_cases hkk : key = key'
      · subst hkk
        have hfilter : List.filter (fun n => resolveKey s n sts = some key) [n] = [n] := by
          simp [hr]
        rw [if_pos rfl, hfilter, List.getLast?_concat]
      · have hkk' : ¬key' = key := fun h => hkk h.symm
        have hfilter : List.filter (fun n => resolveKey s n sts = some key) [n] = [] := by
          simp [hr, hkk']
        rw [if_neg hkk, hfilter, List.append_nil]
        exact ih

theorem linkChildStep_nodes_length (cmap : ConnectMap) (sts : List Nat)
    (s : GroupState) (d : Nat) :
    (linkChildStep cmap sts s d).nodes.length = s.nodes.length := by
  unfold linkChildStep
  cases hr : resolveKey s d sts with
  | none => rfl
  | some key =>
    show (match cmapFind? cmap key with
          | none => s
          | some p => setParent (addChild s p d) d p).nodes.length = _
    cases hf : cmapFind? cmap key with
    | none => rfl
    | some p =>
      show (setParent (addChild s p d) d p).nodes.length = _
      rw [nodes_length_setParent, nodes_length_addChild]

theorem linkChildren_nodes_length (cmap : ConnectMap) (sts : List Nat)
    (bucket : List Nat) :
    ∀ s : GroupState, (linkChildren cmap sts s bucket).nodes.length =
      s.nodes.length := by
  induction bucket with
  | nil => exact fun s => rfl
  | cons d rest ih =>
    intro s
    have hfold : linkChildren cmap sts s (d :: rest) =
        linkChildren cmap sts (linkChildStep cmap sts s d) rest := by
      unfold linkChildren
      rw [List.foldl_cons]
    rw [hfold, ih, linkChildStep_nodes_length]

theorem linkChildStep_parent_other (cmap : ConnectMap) (sts : List Nat)
    (s : GroupState) (d c : Nat) (h : ¬c = d) :
    getNodeParent (linkChildStep cmap sts s d) c = getNodeParent s c := by
  unfold linkChildStep
  cases hr : resolveKey s d sts with
  | none => rfl
  | some key =>
    show getNodeParent
        (match cmapFind? cmap key with
         | none => s
         | some p => setParent (addChild s p d) d p) c = _
    cases hf : cmapFind? cmap key with
    | none => rfl
    | some p =>
      show getNodeParent (setParent (addChild s p d) d p) c = _
      rw [getNodeParent_setParent, if_neg (fun hc => h hc.1), getNodeParent_addChild]

theorem linkChildren_parent_not_mem (cmap : ConnectMap) (sts : List Nat)
    (bucket : List Nat) :
    ∀ (s : GroupState) (c : Nat), c ∉ bucket →
      getNodeParent (linkChildren cmap sts s bucket) c = getNodeParent s c := by
  induction bucket with
  | nil => exact fun s c _ => rfl
  | cons d rest ih =>
    intro s c h
    have h1 : ¬c = d := fun hc => h (hc ▸ List.mem_cons_self d rest)
    have h2 : c ∉ rest := fun hc => h (List.mem_cons_of_mem d hc)
    have hfold : linkChildren cmap sts s (d :: rest) =
        linkChildren cmap sts (linkChildStep cmap sts s d) rest := by
      unfold linkChildren
      rw [List.foldl_cons]
    rw [hfold, ih _ c h2, linkChildStep_parent_other cmap sts s d c h1]

/-! ## Claim C4: inter-thread correlation rule behavior -/

/-- C4: for a correlation rule, (1) a candidate's key resolves exactly when
every key attribute resolves through the ancestor chain; (2) the parent map
holds, for each key, the last parent-bucket candidate resolving to that key
(last write wins); (3) a child-bucket candidate whose key (resolved at its
turn) hits the map is linked under the mapped parent, overwriting its parent
back-reference, and a child whose key misses the map or fails to resolve is
left with its previous parent. -/
theorem claim4_rule_correlation :
    (∀ (s : GroupState) (n : Nat) (sts : List Nat),
      (resolveKey s n sts).isSome = true ↔
        ∀ st ∈ sts, (getContextStat s n st).isSome = true) ∧
    (∀ (s : GroupState) (sts : List Nat) (bucket : List Nat) (key : List Int),
      cmapFind? (buildConnectMap s sts bucket) key =
        (bucket.filter (fun n => resolveKey s n sts = some key)).getLast?) ∧
    (∀ (cmap : ConnectMap) (sts : List Nat) (pre : List Nat) (c : Nat)
       (post : List Nat) (s : GroupState),
      c ∉ post → c < s.nodes.length →
      getNodeParent (linkChildren cmap sts s (pre ++ c :: post)) c =
        (match resolveKey (linkChildren cmap sts s pre) c sts with
         | none => getNodeParent (linkChildren cmap sts s pre) c
         | some key =>
           match cmapFind? cmap key with
           | none => getNodeParent (linkChildren cmap sts s pre) c
           | some p => some p)) := by
  refine ⟨resolveKey_isSome, buildConnectMap_lastWins, ?_⟩
  intro cmap sts pre c post s hpost hc
  have hfold : linkChildren cmap sts s (pre ++ c :: post) =
      linkChildren cmap sts
        (linkChildStep cmap sts (linkChildren cmap sts s pre) c) post := by
    unfold linkChildren
    rw [List.foldl_append, List.foldl_cons]
  rw [hfold, linkChildren_parent_not_mem cmap sts post _ c hpost]
  have hlen : (linkChildren cmap sts s pre).nodes.length = s.nodes.length :=
    linkChildren_nodes_length cmap sts pre s
  unfold linkChildStep
  cases hr : resolveKey (linkChildren cmap sts s pre) c sts with
  | none => rfl
  | some key =>
    show getNodeParent
        (match cmapFind? cmap key with
         | none => linkChildren cmap sts s pre
         | some p => setParent (addChild (linkChildren cmap sts s pre) p c) c p)
        c =
      (match cmapFind? cmap key with
       | none => getNodeParent (linkChildren cmap sts s pre) c
       | some p => some p)
    cases hf : cmapFind? cmap key with
    | none => rfl
    | some p =>
      show getNodeParent
        (setParent (addChild (linkChildren cmap sts s pre) p c) c p) c = some p
      rw [getNodeParent_setParent]
      refine if_pos ⟨rfl, ?_⟩
      rw [get?_isSome_iff, nodes_length_addChild, hlen]
      exact hc

/-- C4 witness: part 3 applied at a concrete instance — node 1 (whose step-id
stat resolves to key `[7]`) is linked under the mapped parent 0. -/
theorem claim4_rule_correlation_witness :
    getNodeParent
        (linkChildren [([(7 : Int)], 0)] [kStepId]
          ⟨[⟨0, 0, 1, []⟩, ⟨0, 0, 1, [⟨1, .int64 7⟩]⟩],
           [⟨⟨[], [(1, kStepId)], []⟩, 0, none, [], none⟩,
            ⟨⟨[], [(1, kStepId)], []⟩, 1, none, [], none⟩]⟩
          ([] ++ 1 :: [])) 1 = some 0 :=
  (claim4_rule_correlation.2.2 [([(7 : Int)], 0)] [kStepId] [] 1 []
      ⟨[⟨0, 0, 1, []⟩, ⟨0, 0, 1, [⟨1, .int64 7⟩]⟩],
       [⟨⟨[], [(1, kStepId)], []⟩, 0, none, [], none⟩,
        ⟨⟨[], [(1, kStepId)], []⟩, 1, none, [], none⟩]⟩
      (by simp) (by decide)).trans rfl

/-! ## Support lemmas for the containment claim (C5) -/

theorem mem_dropWhile_of_not {α : Type} (p : α → Bool) (l : List α) (x : α)
    (hx : x ∈ l) (hpx : p x = false) : x ∈ l.dropWhile p := by
  induction l with
  | nil => cases hx
  | cons a t ih =>
    simp only [List.dropWhile]
    cases hpa : p a
    · exact hx
    · rcases List.mem_cons.mp hx with rfl | hx'
      · rw [hpa] at hpx; cases hpx
      · exact ih hx'

theorem isNested_iff (a b : XEvent) :
    IsNested a b = true ↔
      b.offsetPs ≤ a.offsetPs ∧
        a.offsetPs + a.durationPs ≤ b.offsetPs + b.durationPs := by
  simp [IsNested]

theorem stackChain_tail (s : GroupState) (a : Nat) (l : List Nat)
    (h : stackChain s (a :: l)) : stackChain s l := by
  cases l with
  | nil => trivial
  | cons b rest => exact h.2.2

theorem stackChain_suffix (s : GroupState) :
    ∀ (pre l : List Nat), stackChain s (pre ++ l) → stackChain s l := by
  intro pre
  induction pre with
  | nil => exact fun l h => h
  | cons a pre' ih =>
    intro l h
    exact ih l (stackChain_tail s a (pre' ++ l) h)

theorem stackChain_ancestor (s : GroupState) :
    ∀ (l : List Nat) (a : Nat), stackChain s (a :: l) → ∀ b ∈ l, IsAncestor s b a := by
  intro l
  induction l with
  | nil => intro a _ b hb; cases hb
  | cons c rest ih =>
    intro a h b hb
    rcases h with ⟨hp, _, hch⟩
    rcases List.mem_cons.mp hb with rfl | hb'
    · exact IsAncestor.parentStep hp
    · exact IsAncestor.tail hp (ih c hch b hb')

theorem stackChain_of_eq (s s' : GroupState) :
    ∀ l : List Nat,
      (∀ x ∈ l, getNodeParent s' x = getNodeParent s x) →
      (∀ x ∈ l, nodeEventD s' x = nodeEventD s x) →
      stackChain s l → stackChain s' l := by
  intro l
  induction l with
  | nil => intro _ _ _; trivial
  | cons a rest ih =>
    cases rest with
    | nil => intro _ _ _; trivial
    | cons b rest2 =>
      intro hpar hev h
      rcases h with ⟨hp, hn, hch⟩
      refine ⟨(hpar a (by simp)).trans hp, ?_, ?_⟩
      · rw [hev a (by simp), hev b (by simp)]
        exact hn
      · exact ih (fun x hx => hpar x (List.mem_cons_of_mem a hx))
          (fun x hx => hev x (List.mem_cons_of_mem a hx)) hch

theorem isAncestor_mono (s s' : GroupState)
    (hp : ∀ n p, getNodeParent s n = some p → getNodeParent s' n = some p) :
    ∀ a b, IsAncestor s a b → IsAncestor s' a b := by
  intro a b h
  induction h with
  | parentStep hpp => exact IsAncestor.parentStep (hp _ _ hpp)
  | tail hpp _ ih => exact IsAncestor.tail (hp _ _ hpp) ih

theorem isAncestor_lt (s : GroupState) (hpd : ParentsDecrease s) :
    ∀ a b, IsAncestor s a b → a < b := by
  intro a b h
  induction h with
  | parentStep hp => exact hpd _ _ hp
  | tail hp _ ih => exact lt_trans ih (hpd _ _ hp)

theorem not_sibling_of_ancestor (s : GroupState) (hpd : ParentsDecrease s)
    (a b : Nat) (h : IsAncestor s a b) :
    ¬∃ p, getNodeParent s a = some p ∧ getNodeParent s b = some p := by
  rintro ⟨p, hpa, hpb⟩
  cases h with
  | parentStep hp =>
    have hap : a = p := by
      rw [hp] at hpb
      exact Option.some_inj.mp hpb
    subst hap
    exact absurd (hpd a a hpa) (lt_irrefl a)
  | tail hp hanc =>
    rename_i q
    have hqp : q = p := by
      rw [hp] at hpb
      exact Option.some_inj.mp hpb
    rw [← hqp] at hpa
    exact absurd (lt_trans (isAncestor_lt s hpd a q hanc) (hpd a q hpa))
      (lt_irrefl a)

theorem getNodeEventId_appendNode (s : GroupState) (e : XEvent) (nd : EventNode)
    (m : Nat) :
    getNodeEventId
        { s with events := s.events ++ [e], nodes := s.nodes ++ [nd] } m =
      if m = s.nodes.length then nd.eventId else getNodeEventId s m := by
  unfold getNodeEventId
  simp only
  rw [get?_snoc]
  by_cases h : m = s.nodes.length
  · simp [h]
  · simp [h]

theorem getNodeEventId_setParent (s : GroupState) (c p m : Nat) :
    getNodeEventId (setParent s c p) m = getNodeEventId s m := by
  unfold getNodeEventId setParent
  rw [nodes_get?_modifyNode]
  by_cases h : m = c
  · subst h
    cases hg : s.nodes.get? m <;> simp [hg]
  · simp [h]

theorem getNodeEventId_addChild (s : GroupState) (a b m : Nat) :
    getNodeEventId (addChild s a b) m = getNodeEventId s m := by
  unfold getNodeEventId addChild
  rw [nodes_get?_modifyNode]
  by_cases h : m = a
  · subst h
    cases hg : s.nodes.get? m <;> simp [hg]
  · simp [h]

theorem nodeEventD_setParent (s : GroupState) (c p m : Nat) :
    nodeEventD (setParent s c p) m = nodeEventD s m := by
  unfold nodeEventD
  rw [getNodeEventId_setParent]
  rfl

theorem nodeEventD_addChild (s : GroupState) (a b m : Nat) :
    nodeEventD (addChild s a b) m = nodeEventD s m := by
  unfold nodeEventD
  rw [getNodeEventId_addChild]
  rfl

theorem nodeEventD_eq_of (s : GroupState) (n ei : Nat) (ev : XEvent)
    (hid : getNodeEventId s n = ei) (hc : s.events.get? ei = some ev) :
    nodeEventD s n = ev := by
  unfold nodeEventD
  rw [hid, hc]
  rfl

theorem processEvent_state_eq (v : XPlaneVisitor) (s : GroupState)
    (m : EventNodeMap) (stk : List Nat) (e : XEvent) :
    (processEvent v (s, m, stk) e).1 =
      (linkOnStack
        { s with events := s.events ++ [e],
                 nodes := s.nodes ++ [⟨v, s.events.length, none, [], none⟩] }
        s.nodes.length e stk).1 := rfl

theorem processEvent_stack_eq (v : XPlaneVisitor) (s : GroupState)
    (m : EventNodeMap) (stk : List Nat) (e : XEvent) :
    (processEvent v (s, m, stk) e).2.2 =
      s.nodes.length ::
        (linkOnStack
          { s with events := s.events ++ [e],
                   nodes := s.nodes ++ [⟨v, s.events.length, none, [], none⟩] }
          s.nodes.length e stk).2 := rfl

theorem lt_of_getNodeParent_some (s : GroupState) (n p : Nat)
    (h : getNodeParent s n = some p) : n < s.nodes.length := by
  by_contra hn
  unfold getNodeParent at h
  cases hg : s.nodes.get? n with
  | some nd => exact hn ((get?_isSome_iff s.nodes n).mp (by rw [hg]; rfl))
  | none => rw [hg] at h; exact absurd h (by simp)

/-- The invariant is preserved by one intra-thread step. -/
theorem intraInv_step (v : XPlaneVisitor) (es : List XEvent) (n0 e0 t : Nat)
    (s : GroupState) (m : EventNodeMap) (stk : List Nat)
    (hw : WellOrderedLine es) (ht : t < es.length)
    (inv : IntraInv es n0 e0 t s stk) :
    IntraInv es n0 e0 (t + 1) (processEvent v (s, m, stk) (evAt es t)).1
      (processEvent v (s, m, stk) (evAt es t)).2.2 := by
  have hn0 : s.nodes.length = n0 + t := inv.len_nodes
  have he0 : s.events.length = e0 + t := inv.len_events
  rw [processEvent_state_eq, processEvent_stack_eq, linkOnStack_eq]
  set s1 : GroupState :=
    { s with events := s.events ++ [evAt es t],
             nodes := s.nodes ++ [⟨v, s.events.length, none, [], none⟩] } with hs1
  have hs1nodes : s1.nodes.length = n0 + t + 1 := by
    rw [hs1]; simp [hn0]
  have hs1events : s1.events.length = e0 + t + 1 := by
    rw [hs1]; simp [he0]
  have hid1 : ∀ k, k < t + 1 → getNodeEventId s1 (n0 + k) = e0 + k := by
    intro k hk
    rw [hs1, getNodeEventId_appendNode]
    by_cases hkt : k = t
    · subst hkt
      rw [if_pos (by omega)]
      exact he0
    · rw [if_neg (by omega)]
      exact inv.ev_id k (by omega)
  have hcont1 : ∀ k, k < t + 1 → s1.events.get? (e0 + k) = some (evAt es k) := by
    intro k hk
    show (s.events ++ [evAt es t]).get? (e0 + k) = some (evAt es k)
    rw [get?_snoc]
    by_cases hkt : k = t
    · subst hkt
      rw [if_pos (by omega)]
    · rw [if_neg (by omega)]
      exact inv.ev_content k (by omega)
  have hD1 : ∀ k, k < t + 1 → nodeEventD s1 (n0 + k) = evAt es k :=
    fun k hk => nodeEventD_eq_of s1 _ _ _ (hid1 k hk) (hcont1 k hk)
  have hDs : ∀ k, k < t → nodeEventD s (n0 + k) = evAt es k :=
    fun k hk => nodeEventD_eq_of s _ _ _ (inv.ev_id k hk) (inv.ev_content k hk)
  have hpar1 : ∀ m', m' < s.nodes.length →
      getNodeParent s1 m' = getNodeParent s m' := by
    intro m' hm
    rw [hs1, getNodeParent_appendNode, if_neg (by omega)]
  have hparpres1 : ∀ n p, getNodeParent s n = some p →
      getNodeParent s1 n = some p := by
    intro n p h
    rw [hpar1 n (lt_of_getNodeParent_some s n p h)]
    exact h
  have hpd1 : ParentsDecrease s1 := by
    intro n q h
    by_cases hn : n < s.nodes.length
    · rw [hpar1 n hn] at h
      exact inv.pdec n q h
    · rw [hs1, getNodeParent_appendNode] at h
      by_cases hn' : n = s.nodes.length
      · rw [if_pos hn'] at h
        exact absurd h (by simp)
      · rw [if_neg hn'] at h
        exact inv.pdec n q h
  have hev1 : ∀ x ∈ stk, nodeEventD s1 x = nodeEventD s x := by
    intro x hx
    obtain ⟨k, hk, rfl⟩ := inv.stack_mem x hx
    rw [hD1 k (by omega), hDs k hk]
  have hchain1 : stackChain s1 stk := by
    apply stackChain_of_eq s s1 stk _ hev1 inv.chain
    intro x hx
    obtain ⟨k, hk, rfl⟩ := inv.stack_mem x hx
    exact hpar1 (n0 + k) (by omega)
  have hinstk : ∀ k, k < t → IsNested (evAt es t) (evAt es k) = true →
      (n0 + k) ∈ stk := by
    intro k hk hnest
    by_cases hk1 : k = t - 1
    · obtain ⟨rest, hrest⟩ := inv.stack_top (by omega)
      rw [hrest, hk1]
      exact List.mem_cons_self _ _
    · have hklt : k < t - 1 := by omega
      apply inv.coverage k hk
      rcases hw.1 (t - 1) (by omega) k hklt with hnest' | hdisj
      · exact hnest'
      · exfalso
        have h2 : (evAt es (t - 1)).offsetPs ≤ (evAt es t).offsetPs := by
          rcases hw.1 t ht (t - 1) (by omega) with hn2 | hd2
          · exact ((isNested_iff _ _).mp hn2).1
          · have hpos := hw.2 (t - 1) (by omega)
            omega
        have h3 := (isNested_iff _ _).mp hnest
        have hpos_t := hw.2 t ht
        omega
  have hsurvive : ∀ k, k < t → IsNested (evAt es t) (evAt es k) = true →
      (n0 + k) ∈ stk.dropWhile
        (fun x => !(IsNested (evAt es t) (nodeEventD s1 x))) := by
    intro k hk hnest
    apply mem_dropWhile_of_not _ _ _ (hinstk k hk hnest)
    rw [hD1 k (by omega), hnest]
    rfl
  cases hdrop : stk.dropWhile (fun x => !(IsNested (evAt es t) (nodeEventD s1 x))) with
  | nil =>
    refine ⟨by rw [hs1nodes]; omega, by rw [hs1events]; omega, hid1, hcont1, hpd1,
      ?_, ?_, ?_, ?_, ?_⟩
    · intro x hx
      rcases List.mem_singleton.mp hx with rfl
      exact ⟨t, Nat.lt_succ_self t, hn0⟩
    · intro _
      exact ⟨[], by simp [hn0]⟩
    · trivial
    · intro k hk hnest
      by_cases hkt : k = t
      · subst hkt
        rw [hn0]
        exact List.mem_singleton.mpr rfl
      · exfalso
        have := hsurvive k (by omega) hnest
        rw [hdrop] at this
        cases this
    · intro i j hij hj hnest
      by_cases hjt : j = t
      · subst hjt
        exfalso
        have := hsurvive i (by omega) hnest
        rw [hdrop] at this
        cases this
      · exact isAncestor_mono s s1 hparpres1 _ _
          (inv.ancestry i j hij (by omega) hnest)
  | cons top rest =>
    have htopmem : top ∈ stk :=
      mem_dropWhile _ stk top (by rw [hdrop]; exact List.mem_cons_self top rest)
    obtain ⟨kt, hkt, htopk⟩ := inv.stack_mem top htopmem
    have htoplt : top < s.nodes.length := by omega
    have hnidsome : ((addChild s1 top s.nodes.length).nodes.get?
        s.nodes.length).isSome = true := by
      rw [get?_isSome_iff, nodes_length_addChild, hs1nodes, hn0]
      omega
    have hpar2self : getNodeParent
        (setParent (addChild s1 top s.nodes.length) s.nodes.length top)
        s.nodes.length = some top := by
      rw [getNodeParent_setParent, if_pos ⟨rfl, hnidsome⟩]
    have hpar2other : ∀ m', ¬m' = s.nodes.length →
        getNodeParent
          (setParent (addChild s1 top s.nodes.length) s.nodes.length top) m' =
          getNodeParent s1 m' := by
      intro m' hm
      rw [getNodeParent_setParent, if_neg (fun hc => hm hc.1), getNodeParent_addChild]
    have hev2 : ∀ m', nodeEventD
        (setParent (addChild s1 top s.nodes.length) s.nodes.length top) m' =
        nodeEventD s1 m' := by
      intro m'
      rw [nodeEventD_setParent, nodeEventD_addChild]
    have hid2 : ∀ m', getNodeEventId
        (setParent (addChild s1 top s.nodes.length) s.nodes.length top) m' =
        getNodeEventId s1 m' := by
      intro m'
      rw [getNodeEventId_setParent, getNodeEventId_addChild]
    have hevents2 : (setParent (addChild s1 top s.nodes.length)
        s.nodes.length top).events = s1.events := rfl
    have hparpres2 : ∀ n p, getNodeParent s n = some p →
        getNodeParent
          (setParent (addChild s1 top s.nodes.length) s.nodes.length top) n =
          some p := by
      intro n p h
      have hn : n < s.nodes.length := lt_of_getNodeParent_some s n p h
      rw [hpar2other n (by omega)]
      exact hparpres1 n p h
    have hpredfalse : (!(IsNested (evAt es t) (nodeEventD s1 top))) = false :=
      head_dropWhile_eq_false _ stk top rest hdrop
    have hnesttop : IsNested (evAt es t) (nodeEventD s1 top) = true := by
      cases hx : IsNested (evAt es t) (nodeEventD s1 top)
      · rw [hx] at hpredfalse
        cases hpredfalse
      · rfl
    have hsubstk : ∀ x ∈ top :: rest, x ∈ stk := by
      intro x hx
      exact mem_dropWhile _ stk x (by rw [hdrop]; exact hx)
    have hchain2 : stackChain
        (setParent (addChild s1 top s.nodes.length) s.nodes.length top)
        (s.nodes.length :: top :: rest) := by
      refine ⟨hpar2self, ?_, ?_⟩
      · rw [hev2, hev2]
        have hDnid : nodeEventD s1 s.nodes.length = evAt es t := by
          rw [hn0]
          exact hD1 t (Nat.lt_succ_self t)
        rw [hDnid]
        exact hnesttop
      · have hchainsub : stackChain s1 (top :: rest) := by
          obtain ⟨pre, hpre⟩ := dropWhile_is_suffix_chain
            (fun x => !(IsNested (evAt es t) (nodeEventD s1 x))) stk
          rw [hdrop] at hpre
          exact stackChain_suffix s1 pre (top :: rest) (hpre ▸ hchain1)
        apply stackChain_of_eq s1 _ (top :: rest) _ (fun x _ => hev2 x) hchainsub
        intro x hx
        obtain ⟨k, hk, rfl⟩ := inv.stack_mem x (hsubstk x hx)
        exact hpar2other (n0 + k) (by omega)
    refine ⟨?_, ?_, ?_, ?_, ?_, ?_, ?_, hchain2, ?_, ?_⟩
    · rw [nodes_length_setParent, nodes_length_addChild, hs1nodes]
      omega
    · rw [show (setParent (addChild s1 top s.nodes.length)
        s.nodes.length top).events = s1.events from rfl, hs1events]
      omega
    · intro k hk
      rw [hid2]
      exact hid1 k hk
    · intro k hk
      rw [show (setParent (addChild s1 top s.nodes.length)
        s.nodes.length top).events = s1.events from rfl]
      exact hcont1 k hk
    · intro n q h
      by_cases hn : n = s.nodes.length
      · subst hn
        rw [hpar2self] at h
        have : q = top := (Option.some_inj.mp h).symm
        subst this
        omega
      · rw [hpar2other n hn] at h
        exact hpd1 n q h
    · intro x hx
      rcases List.mem_cons.mp hx with rfl | hx'
      · exact ⟨t, Nat.lt_succ_self t, hn0⟩
      · obtain ⟨k, hk, rfl⟩ := inv.stack_mem _ (hsubstk x hx')
        exact ⟨k, by omega, rfl⟩
    · intro _
      exact ⟨top :: rest, by simp [hn0]⟩
    · intro k hk hnest
      by_cases hkt' : k = t
      · subst hkt'
        rw [hn0]
        exact List.mem_cons_self _ _
      · have := hsurvive k (by omega) hnest
        rw [hdrop] at this
        exact List.mem_cons_of_mem _ this
    · intro i j hij hj hnest
      by_cases hjt : j = t
      · subst hjt
        have hmem : (n0 + i) ∈ top :: rest := by
          have h' := hsurvive i (by omega) hnest
          rw [hdrop] at h'
          exact h'
        have hanc := stackChain_ancestor _ (top :: rest) s.nodes.length hchain2
          (n0 + i) hmem
        rw [← hn0]
        exact hanc
      · exact isAncestor_mono s _ hparpres2 _ _
          (inv.ancestry i j hij (by omega) hnest)

theorem drop_cons_get? {α : Type} (l : List α) :
    ∀ (t : Nat) (e : α) (rest : List α), l.drop t = e :: rest →
      l.get? t = some e ∧ l.drop (t + 1) = rest := by
  induction l with
  | nil =>
    intro t e rest h
    rw [List.drop_nil] at h
    cases h
  | cons a l' ih =>
    intro t e rest h
    cases t with
    | zero =>
      rw [List.drop_zero] at h
      injection h with h1 h2
      subst h1
      subst h2
      exact ⟨rfl, rfl⟩
    | succ t' =>
      have h' : l'.drop t' = e :: rest := h
      obtain ⟨h1, h2⟩ := ih t' e rest h'
      exact ⟨h1, h2⟩

/-- The invariant carried over the whole per-line fold. -/
theorem intraInv_fold (v : XPlaneVisitor) (es : List XEvent) (n0 e0 : Nat)
    (hw : WellOrderedLine es) :
    ∀ (rest : List XEvent) (t : Nat) (acc : GroupState × EventNodeMap × List Nat),
      es.drop t = rest → IntraInv es n0 e0 t acc.1 acc.2.2 →
      IntraInv es n0 e0 (t + rest.length)
        (rest.foldl (processEvent v) acc).1
        (rest.foldl (processEvent v) acc).2.2 := by
  intro rest
  induction rest with
  | nil =>
    intro t acc _ inv
    exact inv
  | cons e rest' ih =>
    intro t acc hdrop inv
    obtain ⟨hget, hdrop'⟩ := drop_cons_get? es t e rest' hdrop
    have ht : t < es.length := (get?_isSome_iff es t).mp (by rw [hget]; rfl)
    have hev : evAt es t = e := by
      unfold evAt
      rw [hget]
      rfl
    rw [List.foldl_cons]
    have hstep := intraInv_step v es n0 e0 t acc.1 acc.2.1 acc.2.2 hw ht inv
    rw [hev] at hstep
    have hres := ih (t + 1) (processEvent v acc e) hdrop' hstep
    have harr : t + 1 + rest'.length = t + (rest'.length + 1) := by omega
    rw [harr] at hres
    exact hres

/-! ## Claim C5: temporal containment becomes ancestry -/

/-- C5: on a line whose events are ordered by start time with properly
nested, positive-length intervals, whenever one event's interval encloses a
later event's interval (equal bounds counting as enclosed), after
`ConnectIntraThread` the enclosed event's node is a strict descendant of the
enclosing event's node — and never its sibling. The stack discipline is
exactly: pop each candidate that does not temporally contain the new event,
and link the new node under the surviving top, if any (part 2). -/
theorem claim5_containment :
    (∀ (v pv : XPlaneVisitor) (s0 : GroupState) (m0 : EventNodeMap)
       (es : List XEvent),
      ParentsDecrease s0 → WellOrderedLine es →
      ∀ i j, i < j → j < es.length → IsNested (evAt es j) (evAt es i) = true →
        IsAncestor (ConnectIntraThread v ⟨pv, [⟨es⟩]⟩ (s0, m0)).1
            (s0.nodes.length + i) (s0.nodes.length + j) ∧
          ¬∃ p,
            getNodeParent (ConnectIntraThread v ⟨pv, [⟨es⟩]⟩ (s0, m0)).1
                (s0.nodes.length + i) = some p ∧
              getNodeParent (ConnectIntraThread v ⟨pv, [⟨es⟩]⟩ (s0, m0)).1
                (s0.nodes.length + j) = some p) ∧
    (∀ (s : GroupState) (nid : Nat) (e : XEvent) (stk : List Nat),
      linkOnStack s nid e stk =
        match stk.dropWhile (fun x => !(IsNested e (nodeEventD s x))) with
        | [] => (s, [])
        | top :: rest => (setParent (addChild s top nid) nid top, top :: rest)) := by
  constructor
  · intro v pv s0 m0 es h0 hw i j hij hj hnest
    have hinv0 : IntraInv es s0.nodes.length s0.events.length 0 s0 [] :=
      ⟨rfl, rfl,
       fun k hk => absurd hk (Nat.not_lt_zero k),
       fun k hk => absurd hk (Nat.not_lt_zero k),
       h0,
       fun x hx => absurd hx (List.not_mem_nil x),
       fun h => absurd h (lt_irrefl 0),
       trivial,
       fun k hk _ => absurd hk (Nat.not_lt_zero k),
       fun a b _ hb _ => absurd hb (Nat.not_lt_zero b)⟩
    have hfold := intraInv_fold v es s0.nodes.length s0.events.length hw es 0
      (s0, m0, []) (by rw [List.drop_zero]) hinv0
    have hzero : (0 : Nat) + es.length = es.length := by omega
    rw [hzero] at hfold
    have hconn : (ConnectIntraThread v ⟨pv, [⟨es⟩]⟩ (s0, m0)).1 =
        (es.foldl (processEvent v) (s0, m0, [])).1 := rfl
    constructor
    · rw [hconn]
      exact hfold.ancestry i j hij hj hnest
    · rw [hconn]
      exact not_sibling_of_ancestor _ hfold.pdec _ _
        (hfold.ancestry i j hij hj hnest)
  · exact fun s nid e stk => linkOnStack_eq s nid e stk

/-- C5 witness: the containment theorem applied to a concrete two-event line
`A[0,100)`, `B[10,90)` processed from the empty state — B's node (id 1) ends
up a strict descendant, and not a sibling, of A's node (id 0). -/
theorem claim5_containment_witness :
    IsAncestor
        (ConnectIntraThread ⟨[], [], []⟩
          ⟨⟨[], [], []⟩, [⟨[⟨0, 0, 100, []⟩, ⟨1, 10, 80, []⟩]⟩]⟩
          (emptyState, [])).1
        (emptyState.nodes.length + 0) (emptyState.nodes.length + 1) ∧
      ¬∃ p,
        getNodeParent
            (ConnectIntraThread ⟨[], [], []⟩
              ⟨⟨[], [], []⟩, [⟨[⟨0, 0, 100, []⟩, ⟨1, 10, 80, []⟩]⟩]⟩
              (emptyState, [])).1
            (emptyState.nodes.length + 0) = some p ∧
          getNodeParent
              (ConnectIntraThread ⟨[], [], []⟩
                ⟨⟨[], [], []⟩, [⟨[⟨0, 0, 100, []⟩, ⟨1, 10, 80, []⟩]⟩]⟩
                (emptyState, [])).1
              (emptyState.nodes.length + 1) = some p :=
  claim5_containment.1 ⟨[], [], []⟩ ⟨[], [], []⟩ emptyState []
    [⟨0, 0, 100, []⟩, ⟨1, 10, 80, []⟩]
    (fun _ _ h => nomatch h) (by unfold WellOrderedLine; decide) 0 1
    (by decide) (by decide) (by decide)

end GroupEventsVerif
